import Mathlib

/-!
# Verification of the CNVbenchmark data-access layer

Shallow embedding of the `cnv_benchmark` Python package and proofs about it.
Pure data transformations (list/dict manipulation, naming-convention checks,
string matching) are translated into executable Lean definitions; filesystem
facts (file existence, parsed CSV contents) are passed in as explicit
arguments; Python exceptions become `Except.error` with the distinguishing
message modelled as a string constant.

Source files embedded here:
* `cnv_benchmark/infercnv_eval.py` (`cnv_result_split_by_cell`)
* `cnv_benchmark/_utility/dataloader_utility.py`
  (`_get_data_available`, `best_match`)
* `cnv_benchmark/_utility/_classes.py` (`Foundation._check_loaded`)
* `cnv_benchmark/dataloader.py` (`DataLoader.fetch_data`,
  `DataLoader.get_as_dataframe`, `DataLoader.get_data_summary`,
  `_validate_data_dict`, `FACSplus.available_datasets`,
  `FACSplus.fetch_facs_expansion`, `FACSplus.dataloader_extend_facs_hybrid`)
-/

namespace CnvBench

/-! ## Generic helpers: Python dict / list behaviour -/

/-- Worker for `drop_duplicates(keep="first")`: keep a row when its key has
not been seen yet. -/
def dedupKeepFirstAux {α β : Type} [DecidableEq β] (k : α → β)
    (seen : List β) : List α → List α
  | [] => []
  | a :: as =>
      if k a ∈ seen then dedupKeepFirstAux k seen as
      else a :: dedupKeepFirstAux k (k a :: seen) as

/-- `drop_duplicates(keep="first")` keyed by `k`: keep the first row of every
key, in first-occurrence order (pandas semantics). -/
def dedupKeepFirst {α β : Type} [DecidableEq β] (k : α → β)
    (l : List α) : List α :=
  dedupKeepFirstAux k [] l

/-- `drop_duplicates(keep="last")` keyed by `k`: keep the last row of every
key, in order of the kept (last) occurrences (pandas semantics). -/
def dedupKeepLast {α β : Type} [DecidableEq β] (k : α → β) : List α → List α
  | [] => []
  | a :: as =>
      if as.any (fun b => k b = k a) then dedupKeepLast k as
      else a :: dedupKeepLast k as

/-- Python `dict` assignment `d[key] = v`: replace the value in place if the
key exists (keeping its position), else append the new pair. -/
def dictSet {α : Type} (d : List (String × α)) (key : String) (v : α) :
    List (String × α) :=
  match d with
  | [] => [(key, v)]
  | (k', v') :: rest =>
      if k' = key then (k', v) :: rest else (k', v') :: dictSet rest key v

/-- Python `dict` lookup `d[key]` (first binding; keys are unique in dicts). -/
def dictGet {α : Type} (d : List (String × α)) (key : String) : Option α :=
  (d.find? (fun p => p.1 = key)).map Prod.snd

/-- Strip a literal prefix: `some` of the remainder when `lit` is an
initial segment of the input. -/
def dropLit : List Char → List Char → Option (List Char)
  | [], cs => some cs
  | _ :: _, [] => none
  | l :: ls, c :: cs => if l = c then dropLit ls cs else none

/-- Fuel-driven worker for Python `str.split(sep)` with a nonempty
separator (fuel `length + 1` always suffices; the zero-fuel branch is
unreachable). -/
def pySplitAux (sep : List Char) : Nat → List Char → List Char →
    List (List Char)
  | 0, cs, acc => [acc.reverse ++ cs]
  | _ + 1, [], acc => [acc.reverse]
  | fuel + 1, c :: rest, acc =>
      match dropLit sep (c :: rest) with
      | some rest' => acc.reverse :: pySplitAux sep fuel rest' []
      | none => pySplitAux sep fuel rest (c :: acc)

/-- Python `s.split(sep)` for a nonempty separator (structural, so it
evaluates inside the kernel, unlike `String.splitOn`). -/
def pySplit (sep : String) (s : String) : List String :=
  (pySplitAux sep.data (s.data.length + 1) s.data []).map
    (fun l => String.mk l)

/-! ## `pathlib` fragment

Only the final path component matters for the embedded code; names are
assumed to contain no `/`.  `pathlib` takes the suffix to be the part of the
name from its last dot on, provided that dot is neither the first nor the
last character; the stem is the name with that suffix removed. -/

/-- Index (from the right) of the last `.` in the name, as a position from
the left, when it yields a real suffix. -/
def lastDotPos (cs : List Char) : Option Nat :=
  let idxs := (List.range cs.length).filter
    (fun i => cs.getD i ' ' = '.' ∧ 0 < i ∧ i + 1 < cs.length)
  idxs.getLast?

/-- `pathlib.PurePath(name).stem` for a single-component name. -/
def pathStem (name : String) : String :=
  match lastDotPos name.data with
  | none => name
  | some i => String.mk (name.data.take i)

/-- `pathlib.PurePath(name).suffix` for a single-component name. -/
def pathSuffix (name : String) : String :=
  match lastDotPos name.data with
  | none => ""
  | some i => String.mk (name.data.drop i)

/-! ## `infercnv_eval.py` — `cnv_result_split_by_cell`

The CSV is parsed by pandas: the first three columns are CHR, START, END,
the remaining columns (one per cell) are given by `cells`; each data row
carries the CHR/START/END fields and the list of per-cell values.  Reading
the file itself is filesystem I/O, so the parsed table and the fact that
the path names an existing file are passed in explicitly. -/

/-- One row of a per-cell CNV table (the END column is called `stop`
because `end` is a Lean keyword). -/
structure CnvRow (V : Type) where
  chr : String
  start : Int
  stop : Int
  val : V
  deriving DecidableEq, Repr

/-- A raw CNV result row: CHR, START, END and one value per cell column. -/
structure RawRow (V : Type) where
  chr : String
  start : Int
  stop : Int
  vals : List V
  deriving DecidableEq, Repr

/-- The deduplication key used by `drop_duplicates(subset=["CHR", cell_id])`. -/
def cnvKey {V : Type} (r : CnvRow V) : String × V := (r.chr, r.val)

/-- `df[["CHR", "START", "END", cell_id]]` after the `CHR` column was
rewritten to `f"chr{x}"`: the slice for the cell at column index `i`
(missing values — never present in well-formed tables — appear as `none`). -/
def cellSlice {V : Type} (rows : List (RawRow V)) (i : Nat) :
    List (CnvRow (Option V)) :=
  rows.map (fun r => { chr := "chr" ++ r.chr, start := r.start,
                       stop := r.stop, val := r.vals.get? i })

/-- The per-cell condensing step of `cnv_result_split_by_cell`:
`keep="first"` and `keep="last"` de-duplications on (CHR, value), then the
END column of the first-occurrence frame is overwritten positionally with
the END column of the last-occurrence frame. -/
def condenseCell {V : Type} [DecidableEq V] (slice : List (CnvRow V)) :
    List (CnvRow V) :=
  let firsts := dedupKeepFirst cnvKey slice
  let lasts := dedupKeepLast cnvKey slice
  List.zipWith
    (fun f l => { chr := f.chr, start := f.start, stop := l.stop,
                  val := f.val })
    firsts lasts

/-- Error message of the input guard of `cnv_result_split_by_cell`. -/
def notCsvMsg : String := "Provided path is not a csv-file!"

/-- Stand-in for the `FileNotFoundError` that `pd.read_csv` raises on a
nonexistent path that slipped past the guard. -/
def readCsvFileMissingMsg : String := "read_csv: file not found"

/-- `cnv_result_split_by_cell(path_csv)`.  `isFile` is the filesystem fact
`path_csv.is_file()`; `name` is the final component of the path; `cells`
are the cell column names (`df.columns[3:]`) and `rows` the parsed rows.
The guard is embedded exactly as written in the source:
`if not path_csv.is_file() and path_csv.stem != ".csv"`. -/
def cnv_result_split_by_cell {V : Type} [DecidableEq V]
    (isFile : Bool) (name : String) (cells : List String)
    (rows : List (RawRow V)) :
    Except String (List (String × List (CnvRow (Option V)))) :=
  if ¬isFile ∧ pathStem name ≠ ".csv" then Except.error notCsvMsg
  else if ¬isFile then Except.error readCsvFileMissingMsg
  else Except.ok ((cells.enum).map
    (fun p => (p.2, condenseCell (cellSlice rows p.1))))

/-- Modelled from the spec (§4.7, for comparison with the source): the
run-length reduction — one row per maximal run of consecutive rows with
identical (CHR, value), carrying the START of the run's first row and the
END of its last row. -/
def specRunLengthReduce {V : Type} [DecidableEq V] :
    List (CnvRow V) → List (CnvRow V)
  | [] => []
  | r :: rest =>
      match specRunLengthReduce rest with
      | [] => [r]
      | s :: ss =>
          if r.chr = s.chr ∧ r.val = s.val then
            { chr := r.chr, start := r.start, stop := s.stop,
              val := r.val } :: ss
          else r :: s :: ss

/-- Modelled from the spec (§4.7, for comparison with the source): the
intended input guard — reject unless the path is an existing file with a
`.csv` extension. -/
def specCsvGuardRejects (isFile : Bool) (name : String) : Bool :=
  !(isFile && (pathSuffix name == ".csv"))

/-! ## Lemmas about the de-duplication helpers -/

theorem mem_map_dedupKeepFirstAux {α β : Type} [DecidableEq β] (k : α → β)
    (p : β) : ∀ (l : List α) (seen : List β),
    (p ∈ (dedupKeepFirstAux k seen l).map k ↔ p ∈ l.map k ∧ p ∉ seen)
  | [], seen => by simp [dedupKeepFirstAux]
  | a :: as, seen => by
      by_cases hs : k a ∈ seen
      · rw [dedupKeepFirstAux, if_pos hs,
          mem_map_dedupKeepFirstAux k p as seen]
        simp only [List.map_cons, List.mem_cons]
        constructor
        · rintro ⟨h1, h2⟩
          exact ⟨Or.inr h1, h2⟩
        · rintro ⟨h1 | h1, h2⟩
          · exact absurd (h1 ▸ hs) h2
          · exact ⟨h1, h2⟩
      · rw [dedupKeepFirstAux, if_neg hs]
        simp only [List.map_cons, List.mem_cons,
          mem_map_dedupKeepFirstAux k p as (k a :: seen)]
        constructor
        · rintro (rfl | ⟨h1, h2⟩)
          · exact ⟨Or.inl rfl, hs⟩
          · exact ⟨Or.inr h1, fun hp => h2 (Or.inr hp)⟩
        · rintro ⟨rfl | h1, h2⟩
          · exact Or.inl rfl
          · by_cases hpa : p = k a
            · exact Or.inl hpa
            · exact Or.inr ⟨h1, by
                intro hp
                rcases hp with h | h
                · exact hpa h
                · exact h2 h⟩

theorem mem_map_dedupKeepFirst {α β : Type} [DecidableEq β] (k : α → β)
    (p : β) (l : List α) :
    p ∈ (dedupKeepFirst k l).map k ↔ p ∈ l.map k := by
  rw [dedupKeepFirst, mem_map_dedupKeepFirstAux]
  simp

theorem nodup_map_dedupKeepFirstAux {α β : Type} [DecidableEq β]
    (k : α → β) : ∀ (l : List α) (seen : List β),
    ((dedupKeepFirstAux k seen l).map k).Nodup
  | [], seen => by simp [dedupKeepFirstAux]
  | a :: as, seen => by
      by_cases hs : k a ∈ seen
      · rw [dedupKeepFirstAux, if_pos hs]
        exact nodup_map_dedupKeepFirstAux k as seen
      · rw [dedupKeepFirstAux, if_neg hs]
        simp only [List.map_cons]
        refine List.nodup_cons.mpr
          ⟨?_, nodup_map_dedupKeepFirstAux k as (k a :: seen)⟩
        intro hmem
        exact ((mem_map_dedupKeepFirstAux k (k a) as (k a :: seen)).mp
          hmem).2 (List.mem_cons_self _ _)

theorem nodup_map_dedupKeepFirst {α β : Type} [DecidableEq β] (k : α → β)
    (l : List α) : ((dedupKeepFirst k l).map k).Nodup :=
  nodup_map_dedupKeepFirstAux k l []

theorem length_dedupKeepFirstAux {α β : Type} [DecidableEq β] (k : α → β) :
    ∀ (l : List α) (seen : List β),
    (dedupKeepFirstAux k seen l).length =
      ((l.map k).toFinset \ seen.toFinset).card
  | [], seen => by simp [dedupKeepFirstAux]
  | a :: as, seen => by
      by_cases hs : k a ∈ seen
      · rw [dedupKeepFirstAux, if_pos hs,
          length_dedupKeepFirstAux k as seen]
        rw [List.map_cons, List.toFinset_cons,
          Finset.insert_sdiff_of_mem _ (List.mem_toFinset.mpr hs)]
      · rw [dedupKeepFirstAux, if_neg hs, List.length_cons,
          length_dedupKeepFirstAux k as (k a :: seen)]
        rw [List.map_cons, List.toFinset_cons, List.toFinset_cons,
          Finset.sdiff_insert,
          Finset.insert_sdiff_of_not_mem _
            (fun h => hs (List.mem_toFinset.mp h))]
        set T := (as.map k).toFinset \ seen.toFinset with hT
        by_cases hmem : k a ∈ T
        · rw [Finset.card_erase_add_one hmem,
            Finset.insert_eq_self.mpr hmem]
        · rw [Finset.erase_eq_of_not_mem hmem,
            Finset.card_insert_of_not_mem hmem]

theorem length_dedupKeepLast_card {α β : Type} [DecidableEq β]
    (k : α → β) : ∀ (l : List α),
    (dedupKeepLast k l).length = (l.map k).toFinset.card
  | [] => by simp [dedupKeepLast]
  | a :: as => by
      by_cases h : as.any (fun b => k b = k a)
      · have hmem : k a ∈ (as.map k).toFinset := by
          rcases List.any_eq_true.mp h with ⟨b, hb, hkb⟩
          exact List.mem_toFinset.mpr
            (List.mem_map.mpr ⟨b, hb, of_decide_eq_true hkb⟩)
        rw [dedupKeepLast, if_pos h, length_dedupKeepLast_card k as,
          List.map_cons, List.toFinset_cons,
          Finset.insert_eq_self.mpr hmem]
      · have hmem : k a ∉ (as.map k).toFinset := by
          intro hin
          rcases List.mem_map.mp (List.mem_toFinset.mp hin) with ⟨b, hb, hkb⟩
          exact h (List.any_eq_true.mpr ⟨b, hb, decide_eq_true hkb⟩)
        rw [dedupKeepLast, if_neg h, List.length_cons,
          length_dedupKeepLast_card k as, List.map_cons,
          List.toFinset_cons, Finset.card_insert_of_not_mem hmem]

theorem length_dedupKeepLast_eq {α β : Type} [DecidableEq β] (k : α → β)
    (l : List α) :
    (dedupKeepLast k l).length = (dedupKeepFirst k l).length := by
  rw [dedupKeepFirst, length_dedupKeepFirstAux, length_dedupKeepLast_card]
  simp

theorem condenseCell_len_first {V : Type} [DecidableEq V]
    (slice : List (CnvRow V)) :
    (condenseCell slice).length = (dedupKeepFirst cnvKey slice).length := by
  simp [condenseCell, List.length_zipWith, length_dedupKeepLast_eq]

theorem map_zipWith_left {α γ : Type} (f : α → α → α) (g : α → γ)
    (hg : ∀ a b, g (f a b) = g a) :
    ∀ (as bs : List α), as.length = bs.length →
    (List.zipWith f as bs).map g = as.map g
  | [], [], _ => rfl
  | [], _ :: _, h => by simp at h
  | _ :: _, [], h => by simp at h
  | a :: as, b :: bs, h => by
      simp only [List.zipWith_cons_cons, List.map_cons, hg]
      rw [map_zipWith_left f g hg as bs (by simpa using h)]

theorem map_zipWith_right {α γ : Type} (f : α → α → α) (g : α → γ)
    (hg : ∀ a b, g (f a b) = g b) :
    ∀ (as bs : List α), as.length = bs.length →
    (List.zipWith f as bs).map g = bs.map g
  | [], [], _ => rfl
  | [], _ :: _, h => by simp at h
  | _ :: _, [], h => by simp at h
  | a :: as, b :: bs, h => by
      simp only [List.zipWith_cons_cons, List.map_cons, hg]
      rw [map_zipWith_right f g hg as bs (by simpa using h)]

/-! ## Claim C1 — `cnv_result_split_by_cell` reduction semantics -/

/-- C1 counterexample: on one chromosome with cell values 2, 3, 2 the column
has three maximal runs, but the code's global `drop_duplicates` on
(CHR, value) merges the two non-adjacent value-2 runs: the returned table
has 2 rows and is not the run-length reduction (which has 3 rows). -/
theorem c1_runs_counterexample :
    cnv_result_split_by_cell (V := Int) true "result.csv" ["cell1"]
        [⟨"1", 0, 10, [2]⟩, ⟨"1", 10, 20, [3]⟩, ⟨"1", 20, 30, [2]⟩] =
      Except.ok [("cell1",
        [⟨"chr1", 0, 20, some 2⟩, ⟨"chr1", 10, 30, some 3⟩])] ∧
    specRunLengthReduce (cellSlice (V := Int)
        [⟨"1", 0, 10, [2]⟩, ⟨"1", 10, 20, [3]⟩, ⟨"1", 20, 30, [2]⟩] 0) =
      [⟨"chr1", 0, 10, some 2⟩, ⟨"chr1", 10, 20, some 3⟩,
       ⟨"chr1", 20, 30, some 2⟩] ∧
    ([⟨"chr1", 0, 20, some 2⟩, ⟨"chr1", 10, 30, some 3⟩] :
        List (CnvRow (Option Int))) ≠
      [⟨"chr1", 0, 10, some 2⟩, ⟨"chr1", 10, 20, some 3⟩,
       ⟨"chr1", 20, 30, some 2⟩] := by
  refine ⟨rfl, rfl, ?_⟩
  decide

/-- C1 (amended): for every accepted CSV input and every cell column, the
returned table for that cell is the global (CHR, value) de-duplication of
the column — one row per *distinct* (CHR, value) pair (not per maximal
run): its keys are duplicate-free and are exactly the keys occurring in the
column; its CHR/START/value fields are those of the first occurrence of
each pair, in first-occurrence order; its END column is, positionally, the
END column of the last-occurrence de-duplication. -/
theorem c1_dedup_not_runs {V : Type} [DecidableEq V]
    (name : String) (cells : List String) (rows : List (RawRow V))
    (tables : List (String × List (CnvRow (Option V))))
    (hok : cnv_result_split_by_cell true name cells rows =
      Except.ok tables)
    (i : Nat) (c : String) (t : List (CnvRow (Option V)))
    (hit : tables.get? i = some (c, t)) :
    cells.get? i = some c ∧
    t = condenseCell (cellSlice rows i) ∧
    (t.map cnvKey).Nodup ∧
    (∀ p, p ∈ t.map cnvKey ↔ p ∈ (cellSlice rows i).map cnvKey) ∧
    t.map (fun r => (r.chr, r.start, r.val)) =
      (dedupKeepFirst cnvKey (cellSlice rows i)).map
        (fun r => (r.chr, r.start, r.val)) ∧
    t.map CnvRow.stop =
      (dedupKeepLast cnvKey (cellSlice rows i)).map CnvRow.stop := by
  have htab : tables = (cells.enum).map
      (fun p => (p.2, condenseCell (cellSlice rows p.1))) := by
    have h0 : cnv_result_split_by_cell (V := V) true name cells rows =
        Except.ok ((cells.enum).map
          (fun p => (p.2, condenseCell (cellSlice rows p.1)))) := rfl
    rw [h0] at hok
    exact (Except.ok.inj hok).symm
  subst htab
  rw [List.get?_eq_getElem?, List.getElem?_map, List.getElem?_enum,
    Option.map_map] at hit
  rcases Option.map_eq_some'.mp hit with ⟨c0, hc0, heq⟩
  have heq' : (c0, condenseCell (cellSlice rows i)) = (c, t) := heq
  have hc : c0 = c := congrArg Prod.fst heq'
  have ht : t = condenseCell (cellSlice rows i) :=
    (congrArg Prod.snd heq').symm
  have hlen : (dedupKeepFirst cnvKey (cellSlice rows i)).length =
      (dedupKeepLast cnvKey (cellSlice rows i)).length :=
    (length_dedupKeepLast_eq cnvKey (cellSlice rows i)).symm
  have hmapk : (condenseCell (cellSlice rows i)).map cnvKey =
      (dedupKeepFirst cnvKey (cellSlice rows i)).map cnvKey := by
    have h := map_zipWith_left
      (fun f l => ({ chr := f.chr, start := f.start, stop := l.stop,
                     val := f.val } : CnvRow (Option V)))
      cnvKey (fun a b => rfl)
      (dedupKeepFirst cnvKey (cellSlice rows i))
      (dedupKeepLast cnvKey (cellSlice rows i)) hlen
    simpa [condenseCell] using h
  refine ⟨by rw [List.get?_eq_getElem?, hc0, hc], ht, ?_, ?_, ?_, ?_⟩
  · rw [ht, hmapk]
    exact nodup_map_dedupKeepFirst cnvKey _
  · intro p
    rw [ht, hmapk]
    exact mem_map_dedupKeepFirst cnvKey p _
  · rw [ht]
    have h := map_zipWith_left
      (fun f l => ({ chr := f.chr, start := f.start, stop := l.stop,
                     val := f.val } : CnvRow (Option V)))
      (fun r => (r.chr, r.start, r.val)) (fun a b => rfl)
      (dedupKeepFirst cnvKey (cellSlice rows i))
      (dedupKeepLast cnvKey (cellSlice rows i)) hlen
    simpa [condenseCell] using h
  · rw [ht]
    have h := map_zipWith_right
      (fun f l => ({ chr := f.chr, start := f.start, stop := l.stop,
                     val := f.val } : CnvRow (Option V)))
      CnvRow.stop (fun a b => rfl)
      (dedupKeepFirst cnvKey (cellSlice rows i))
      (dedupKeepLast cnvKey (cellSlice rows i)) hlen
    simpa [condenseCell] using h

/-- Witness for C1 (amended), at the counterexample's input. -/
theorem c1_dedup_not_runs_witness :
    (["cell1"].get? 0 = some "cell1") ∧
    ([⟨"chr1", 0, 20, some 2⟩, ⟨"chr1", 10, 30, some 3⟩] :
        List (CnvRow (Option Int))) =
      condenseCell (cellSlice (V := Int)
        [⟨"1", 0, 10, [2]⟩, ⟨"1", 10, 20, [3]⟩, ⟨"1", 20, 30, [2]⟩] 0) :=
  ⟨(c1_dedup_not_runs "result.csv" ["cell1"]
      [⟨"1", 0, 10, [2]⟩, ⟨"1", 10, 20, [3]⟩, ⟨"1", 20, 30, [2]⟩]
      _ rfl 0 "cell1"
      [⟨"chr1", 0, 20, some 2⟩, ⟨"chr1", 10, 30, some 3⟩] (by decide)).1,
   (c1_dedup_not_runs "result.csv" ["cell1"]
      [⟨"1", 0, 10, [2]⟩, ⟨"1", 10, 20, [3]⟩, ⟨"1", 20, 30, [2]⟩]
      _ rfl 0 "cell1"
      [⟨"chr1", 0, 20, some 2⟩, ⟨"chr1", 10, 30, some 3⟩] (by decide)).2.1⟩

/-! ## Claim C4 — the `.csv` input guard of `cnv_result_split_by_cell` -/

/-- C4 (code bug): the source guard reads
`if not path_csv.is_file() and path_csv.stem != ".csv"`, which accepts any
*existing* file regardless of extension (and even a nonexistent path whose
stem is literally `.csv`).  At the failing input — an existing file named
`data.txt` — the code proceeds to parse instead of raising the
invalid-input error the spec describes, although the spec-intended guard
rejects it; a nonexistent path named `.csv` is likewise not rejected by
the guard. -/
theorem c4_guard_code_bug :
    cnv_result_split_by_cell (V := Int) true "data.txt" ["c"] [] =
      Except.ok [("c", [])] ∧
    specCsvGuardRejects true "data.txt" = true ∧
    cnv_result_split_by_cell (V := Int) false ".csv" ["c"] [] =
      Except.error readCsvFileMissingMsg ∧
    cnv_result_split_by_cell (V := Int) false "data" ["c"] [] =
      Except.error notCsvMsg := by
  exact ⟨rfl, rfl, rfl, rfl⟩

/-! ## `dataloader_utility.py` — `best_match`

`best_match` scores every candidate with
`Align.PairwiseAligner(match_score=1.0)` configured with `mode="local"`,
`open_gap_score=-1`, `extend_gap_score=0` (mismatch score 0.0 by default).
This is local (Smith–Waterman/Gotoh) alignment; because the extension
penalty is 0 the E/F gap matrices satisfy
`E(i,j) = max(H(i,j-1) - 1, E(i,j-1))` and
`F(i,j) = max(H(i-1,j) - 1, F(i-1,j))`, and `H` is floored at 0.  The value
`-1` is a safe stand-in for the undefined (minus-infinity) border entries
of `E`/`F`: every defined entry is at least `-1` and `H ≥ 0` never takes a
`-1` candidate. -/

/-- One row of the Gotoh recurrence.  Arguments: remaining query chars,
`H(i-1, j-1)`, `H(i-1, ·)` from column `j`, `F(i-1, ·)` from column `j`,
`H(i, j-1)`, `E(i, j-1)`.  Produces the `(H, F)` cells of row `i` from
column `1` on. -/
def swRowAux (xi : Char) : List Char → Int → List Int → List Int →
    Int → Int → List (Int × Int)
  | [], _, _, _, _, _ => []
  | yj :: ys, phPrev, pH, pF, hLeft, eLeft =>
      let ph := pH.headD 0
      let pf := pF.headD (-1)
      let e := max (hLeft - 1) eLeft
      let f := max (ph - 1) pf
      let sc : Int := if xi = yj then 1 else 0
      let h := max (max 0 (phPrev + sc)) (max e f)
      (h, f) :: swRowAux xi ys ph pH.tail pF.tail h e

/-- Next `(H, F)` rows (length `|y| + 1`, with the border column). -/
def swRow (xi : Char) (y : List Char) (prevH prevF : List Int) :
    List Int × List Int :=
  let cells := swRowAux xi y (prevH.headD 0) prevH.tail prevF.tail 0 (-1)
  ((0 : Int) :: cells.map Prod.fst, (-1 : Int) :: cells.map Prod.snd)

/-- Fold over the target characters, tracking the running maximum of all
`H` entries (the local-alignment score). -/
def swGo (y : List Char) : List Char → List Int → List Int → Int → Int
  | [], _, _, best => best
  | xi :: xs, prevH, prevF, best =>
      let pr := swRow xi y prevH prevF
      swGo y xs pr.1 pr.2 (pr.1.foldl max best)

/-- `aligner.score(str(target), query)` for the configuration used by
`best_match`. -/
def alignScore (target query : String) : Int :=
  swGo query.data target.data
    (List.replicate (query.data.length + 1) (0 : Int))
    (List.replicate (query.data.length + 1) (-1 : Int)) 0

/-- Python's `max` over a nonempty list (meaningless on `[]`, where the
source raises `ValueError`). -/
def listMax (l : List Int) : Int := l.foldl max (l.headD 0)

/-- Result of `best_match`: a single hit, a list of hits, or `None`. -/
inductive BMatch where
  | one : String → BMatch
  | many : List String → BMatch
  | noHit : BMatch
  deriving DecidableEq, Repr

/-- Error message raised on an ambiguous single-mode match. -/
def ambiguousMsg : String :=
  "Match of query is too ambigious. Please be more precise with your query!"

/-- Stand-in for the `ValueError` Python's `max` raises on an empty list. -/
def maxEmptyMsg : String := "max() arg is an empty sequence"

/-- `best_match(query, search_list, mult_match)`. -/
def best_match (query : String) (searchList : List String)
    (multMatch : Bool) : Except String BMatch :=
  let listScores := searchList.map (fun target => alignScore target query)
  if searchList.isEmpty then Except.error maxEmptyMsg
  else if !multMatch then
    if 1 < listScores.count (listMax listScores) then
      Except.error ambiguousMsg
    else
      Except.ok (BMatch.one
        (searchList.getD (listScores.indexOf (listMax listScores)) ""))
  else
    if 0 < listMax listScores then
      Except.ok (BMatch.many (((searchList.zip listScores).filter
        (fun p => p.2 = listMax listScores)).map Prod.fst))
    else Except.ok BMatch.noHit

/-! ### Score and maximum lemmas -/

theorem le_foldl_max (b : Int) : ∀ (l : List Int), b ≤ l.foldl max b
  | [] => le_refl b
  | a :: as => le_trans (le_max_left b a) (le_foldl_max (max b a) as)

theorem le_foldl_max_of_mem {a : Int} :
    ∀ {l : List Int} (b : Int), a ∈ l → a ≤ l.foldl max b
  | [], _, h => absurd h (List.not_mem_nil a)
  | x :: xs, b, h => by
      rcases List.mem_cons.mp h with rfl | hx
      · exact le_trans (le_max_right b a) (le_foldl_max (max b a) xs)
      · exact le_foldl_max_of_mem (max b x) hx

theorem foldl_max_mem : ∀ (l : List Int) (b : Int),
    l.foldl max b = b ∨ l.foldl max b ∈ l
  | [], b => Or.inl rfl
  | a :: as, b => by
      rcases foldl_max_mem as (max b a) with h | h
      · rcases max_choice b a with hm | hm
        · exact Or.inl (by rw [List.foldl_cons, h, hm])
        · exact Or.inr (by rw [List.foldl_cons, h, hm]; exact
            List.mem_cons_self _ _)
      · exact Or.inr (List.mem_cons_of_mem _ h)

theorem listMax_mem {l : List Int} (h : l ≠ []) : listMax l ∈ l := by
  rcases l with _ | ⟨a, as⟩
  · exact absurd rfl h
  · rcases foldl_max_mem (a :: as) ((a :: as).headD 0) with h1 | h1
    · rw [listMax, h1]
      exact List.mem_cons_self _ _
    · exact h1

theorem le_listMax {a : Int} {l : List Int} (h : a ∈ l) : a ≤ listMax l :=
  le_foldl_max_of_mem _ h

theorem swGo_le (y : List Char) : ∀ (xs : List Char) (prevH prevF : List Int)
    (best : Int), best ≤ swGo y xs prevH prevF best
  | [], _, _, _ => le_refl _
  | xi :: xs, prevH, prevF, best => by
      rw [swGo]
      exact le_trans (le_foldl_max best _) (swGo_le y xs _ _ _)

/-- Local-alignment scores are nonnegative. -/
theorem alignScore_nonneg (target query : String) :
    0 ≤ alignScore target query :=
  swGo_le _ _ _ _ _

/-! ### Counting and selection lemmas for `best_match` -/

theorem count_map_eq_length_filter {α : Type} [DecidableEq α]
    (f : String → α) (m : α) : ∀ (l : List String),
    (l.map f).count m = (l.filter (fun t => f t = m)).length
  | [] => rfl
  | a :: as => by
      rw [List.map_cons, List.filter_cons]
      by_cases h : f a = m
      · simp [h, List.count_cons, count_map_eq_length_filter f m as]
      · simp [h, List.count_cons, count_map_eq_length_filter f m as]

theorem filter_zip_map_scores {α : Type} [DecidableEq α] (f : String → α)
    (m : α) : ∀ (l : List String),
    (((l.zip (l.map f)).filter (fun p => p.2 = m)).map Prod.fst) =
      l.filter (fun t => f t = m)
  | [] => rfl
  | a :: as => by
      rw [List.map_cons, List.zip_cons_cons, List.filter_cons,
        List.filter_cons]
      by_cases h : f a = m
      · rw [if_pos (by simpa using h), if_pos (by simpa using h),
          List.map_cons, filter_zip_map_scores f m as]
      · rw [if_neg (by simpa using h), if_neg (by simpa using h),
          filter_zip_map_scores f m as]

/-! ## Claim C3 — `best_match` selection behaviour -/

/-- C3 counterexample: in multiple-match mode duplicates are *not* removed —
with candidate list `["a", "a"]` and query `"a"` both copies attain the
maximum score and both are returned, so the result is not the
duplicate-free set of top-scoring candidates. -/
theorem c3_duplicates_counterexample :
    best_match "a" ["a", "a"] true =
      Except.ok (BMatch.many ["a", "a"]) ∧
    ¬(["a", "a"] : List String).Nodup := by
  refine ⟨rfl, by decide⟩

/-- C3 (amended): for every query and nonempty candidate list, with `m` the
maximum local-alignment score (match 1, mismatch 0, gap open −1, gap
extend 0): single-match mode raises the ambiguous-match error iff more
than one entry attains `m`, and otherwise returns the unique top-scoring
candidate; multiple-match mode returns no value iff `m = 0`, and otherwise
returns the list of all candidates attaining `m` in input order —
duplicates are preserved, not removed. -/
theorem c3_best_match_selection (q : String) (l : List String)
    (hne : l ≠ []) :
    (best_match q l false = Except.error ambiguousMsg ↔
      1 < (l.map (fun t => alignScore t q)).count
        (listMax (l.map (fun t => alignScore t q)))) ∧
    ((l.map (fun t => alignScore t q)).count
        (listMax (l.map (fun t => alignScore t q))) = 1 →
      ∃ c, best_match q l false = Except.ok (BMatch.one c) ∧ c ∈ l ∧
        alignScore c q = listMax (l.map (fun t => alignScore t q)) ∧
        ∀ d ∈ l, alignScore d q =
          listMax (l.map (fun t => alignScore t q)) → d = c) ∧
    (best_match q l true = Except.ok BMatch.noHit ↔
      listMax (l.map (fun t => alignScore t q)) = 0) ∧
    (0 < listMax (l.map (fun t => alignScore t q)) →
      best_match q l true = Except.ok (BMatch.many (l.filter
        (fun t => alignScore t q =
          listMax (l.map (fun t => alignScore t q)))))) := by
  have hle : l.isEmpty = false := List.isEmpty_eq_false.mpr hne
  set scores := l.map (fun t => alignScore t q) with hscores
  set m := listMax scores with hm
  have hsne : scores ≠ [] := by
    intro h
    exact hne (List.map_eq_nil_iff.mp (hscores ▸ h))
  have hmem : m ∈ scores := listMax_mem hsne
  have hmnonneg : 0 ≤ m := by
    rcases List.mem_map.mp (hscores ▸ hmem) with ⟨t, _, hts⟩
    exact hts ▸ alignScore_nonneg t q
  have h1 : best_match q l false =
      (if 1 < scores.count m then Except.error ambiguousMsg
       else Except.ok (BMatch.one (l.getD (scores.indexOf m) ""))) := by
    rw [best_match]
    rw [if_neg (by rw [hle]; exact Bool.false_ne_true)]
    rw [if_pos (show (!false) = true from rfl)]
  have h2 : best_match q l true =
      (if 0 < m then
        Except.ok (BMatch.many (((l.zip scores).filter
          (fun p => p.2 = m)).map Prod.fst))
       else Except.ok BMatch.noHit) := by
    rw [best_match]
    rw [if_neg (by rw [hle]; exact Bool.false_ne_true)]
    rw [if_neg (show ¬((!true) = true) from by decide)]
  refine ⟨?_, ?_, ?_, ?_⟩
  · rw [h1]
    by_cases hcnt : 1 < scores.count m
    · rw [if_pos hcnt]
      exact iff_of_true rfl hcnt
    · rw [if_neg hcnt]
      refine iff_of_false (fun h => ?_) hcnt
      exact Except.noConfusion h
  · intro hcnt
    have hnot : ¬1 < scores.count m := by omega
    have hidx : scores.indexOf m < scores.length :=
      List.indexOf_lt_length.mpr hmem
    have hidx' : scores.indexOf m < l.length := by
      rwa [hscores, List.length_map] at hidx
    refine ⟨l.getD (scores.indexOf m) "", ?_, ?_, ?_, ?_⟩
    · rw [h1, if_neg hnot]
    · rw [List.getD_eq_getElem l "" hidx']
      exact l.getElem_mem hidx'
    · rw [List.getD_eq_getElem l "" hidx']
      have hs : scores.get ⟨scores.indexOf m, hidx⟩ = m := List.getElem_indexOf hidx
      have h4 : scores.get ⟨scores.indexOf m, hidx⟩ =
          alignScore (l.get ⟨scores.indexOf m, hidx'⟩) q := List.getElem_map _
      exact h4.symm.trans hs
    · intro d hd hdm
      have hfl : (l.filter (fun t => alignScore t q = m)).length = 1 := by
        rw [← count_map_eq_length_filter (fun t => alignScore t q) m l]
        exact hcnt
      rcases List.length_eq_one.mp hfl with ⟨e, he⟩
      have hdmem : d ∈ l.filter (fun t => alignScore t q = m) :=
        List.mem_filter.mpr ⟨hd, by simpa using hdm⟩
      have hcmem : l.getD (scores.indexOf m) "" ∈
          l.filter (fun t => alignScore t q = m) := by
        refine List.mem_filter.mpr ⟨?_, ?_⟩
        · rw [List.getD_eq_getElem l "" hidx']
          exact l.getElem_mem hidx'
        · rw [List.getD_eq_getElem l "" hidx']
          have hs : scores.get ⟨scores.indexOf m, hidx⟩ = m :=
            List.getElem_indexOf hidx
          have h4 : scores.get ⟨scores.indexOf m, hidx⟩ =
              alignScore (l.get ⟨scores.indexOf m, hidx'⟩) q := List.getElem_map _
          simpa using h4.symm.trans hs
      rw [he] at hdmem hcmem
      rw [List.mem_singleton.mp hdmem, List.mem_singleton.mp hcmem]
  · rw [h2]
    by_cases h0 : 0 < m
    · rw [if_pos h0]
      refine iff_of_false (fun h => ?_) (by omega)
      exact BMatch.noConfusion (Except.ok.inj h)
    · rw [if_neg h0]
      exact iff_of_true rfl (by omega)
  · intro h0
    rw [h2, if_pos h0, hscores,
      filter_zip_map_scores (fun t => alignScore t q) m l]

set_option maxRecDepth 8000 in
/-- Witness for C3 (amended): query `"wu"` against
`["wu_group", "biaan_group"]` (scores 2 and 1). -/
theorem c3_best_match_selection_witness :
    best_match "wu" ["wu_group", "biaan_group"] true =
      Except.ok (BMatch.many (["wu_group", "biaan_group"].filter
        (fun t => alignScore t "wu" =
          listMax (["wu_group", "biaan_group"].map
            (fun t => alignScore t "wu"))))) :=
  (c3_best_match_selection "wu" ["wu_group", "biaan_group"]
    (by decide)).2.2.2 (by decide)

/-! ## `_classes.py` — `Foundation._check_loaded`, and `dataloader.py` —
`DataLoader`

A catalog maps group name → dataset tag → required-type → file path. -/

/-- `{required-type: path}` for one dataset tag. -/
abbrev TagFiles : Type := List (String × String)

/-- `{tag: {required-type: path}}` for one group. -/
abbrev GroupEntry : Type := List (String × TagFiles)

/-- `{group: {tag: {required-type: path}}}` — the class-level catalog. -/
abbrev Catalog : Type := List (String × GroupEntry)

/-- A `DataLoader` instance: the two data attributes may be unset (`None`),
`error_text` is always set by `__init__` (`class_obj` is modelled only in
the attribute dictionary below, always set). -/
structure DLInst where
  fetched_group_dict_data : Option GroupEntry
  selected_group : Option String
  error_text : String
  deriving DecidableEq

/-- `self.__dict__` of a `DataLoader` as (attribute name, holds-a-value):
`super().__init__()` inserts `class_obj` and `error_text` first; the
subclass then sets `fetched_group_dict_data`, `selected_group` and
overwrites the first two (insertion order is preserved). -/
def dlAttrs (inst : DLInst) : List (String × Bool) :=
  [("class_obj", true), ("error_text", true),
   ("fetched_group_dict_data", inst.fetched_group_dict_data.isSome),
   ("selected_group", inst.selected_group.isSome)]

/-- `Foundation._check_loaded`: raise `ValueError(self.error_text)` as soon
as any attribute value is `None`. -/
def checkLoaded (attrs : List (String × Bool)) (errorText : String) :
    Except String Unit :=
  if attrs.all (fun p => p.2) then Except.ok () else Except.error errorText

/-- The `error_text` a `DataLoader.__init__` installs. -/
def dataLoaderErrorText : String :=
  "\n        #################################################\n        Class has not been initialized!\n        Use Dataloader.fetch_data(group_data: str) first.\n        #################################################\n        "

/-- `DataLoader()` — a freshly constructed, uninitialized instance. -/
def freshDataLoader : DLInst :=
  { fetched_group_dict_data := none, selected_group := none,
    error_text := dataLoaderErrorText }

/-- The optional-spreadsheet environment seen by `get_data_summary`:
whether the `.xlsx` path exists and, when it does, the parsed table's
column names. -/
structure XlsxEnv where
  pathExists : String → Bool
  columns : String → List String

/-- `DataLoader.get_data_summary`: guard, then look for
`<group-without-_group>_availableDatasets.xlsx` under the group directory;
return the columns matching selected tags (`none` models both the missing
file and the no-matching-columns case, where Python returns `None` after
an optional notice).  The returned table is modelled by its selected
column names. -/
def get_data_summary (inst : DLInst) (dataLoc : String) (env : XlsxEnv) :
    Except String (Option (List String)) :=
  match checkLoaded (dlAttrs inst) inst.error_text with
  | Except.error e => Except.error e
  | Except.ok _ =>
    let grp := inst.selected_group.getD ""
    let path := dataLoc ++ "/" ++ grp ++ "/" ++
      (grp.replace "_group" "") ++ "_availableDatasets.xlsx"
    if env.pathExists path then
      let selected := (inst.fetched_group_dict_data.getD []).map Prod.fst
      let filtered := selected.filter (fun c => c ∈ env.columns path)
      if filtered.length > 0 then Except.ok (some filtered)
      else Except.ok none
    else Except.ok none

/-! ### `DataLoader.fetch_data` -/

/-- The runtime type of the `subset_filter` argument: `None`, a string, a
list of strings, or any other Python object. -/
inductive SubsetFilter where
  | noneV : SubsetFilter
  | strV : String → SubsetFilter
  | listV : List String → SubsetFilter
  | otherV : SubsetFilter
  deriving DecidableEq

/-- Error message for a `subset_filter` of unsupported type. -/
def invalidSubsetMsg : String :=
  "Attribute subset_filter must be the following datatypes: (str, list)"

/-- Error message when the subset selection is empty (the source
interpolates the filter and group into the message; elided here). -/
def noSubsetMatchMsg : String :=
  "There are no matches for given subset_filter!"

/-- Single-match resolution: `best_match(query, list)` without
`mult_match` returns a plain string on success. -/
def bestMatchSingle (query : String) (searchList : List String) :
    Except String String :=
  match best_match query searchList false with
  | Except.ok (BMatch.one s) => Except.ok s
  | Except.ok _ => Except.error "unreachable: single mode yields one hit"
  | Except.error e => Except.error e

/-- The dict comprehension
`{tag: dict_subset_group[tag] for tag in subset_filter if tag in keys}`:
tags in filter order, duplicates collapsed (dict keys are unique; repeated
insertions of the same key rewrite the same value). -/
def subsetSelect (grp : GroupEntry) (tags : List String) : GroupEntry :=
  (dedupKeepFirst id (tags.filter
      (fun tag => tag ∈ grp.map Prod.fst))).map
    (fun tag => (tag, (dictGet grp tag).getD []))

/-- `DataLoader.fetch_data(group_data, subset_filter)` over a given class
catalog. -/
def fetch_data (catalog : Catalog) (group_data : String)
    (subset_filter : SubsetFilter) : Except String DLInst :=
  match bestMatchSingle group_data (catalog.map Prod.fst) with
  | Except.error e => Except.error e
  | Except.ok g =>
    let dictSubsetGroup := (dictGet catalog g).getD []
    match subset_filter with
    | SubsetFilter.otherV => Except.error invalidSubsetMsg
    | SubsetFilter.noneV =>
        if dictSubsetGroup.isEmpty then Except.error noSubsetMatchMsg
        else Except.ok { fetched_group_dict_data := some dictSubsetGroup,
                         selected_group := some g,
                         error_text := dataLoaderErrorText }
    | SubsetFilter.strV s =>
        let sel := subsetSelect dictSubsetGroup [s]
        if sel.isEmpty then Except.error noSubsetMatchMsg
        else Except.ok { fetched_group_dict_data := some sel,
                         selected_group := some g,
                         error_text := dataLoaderErrorText }
    | SubsetFilter.listV tags =>
        let sel := subsetSelect dictSubsetGroup tags
        if sel.isEmpty then Except.error noSubsetMatchMsg
        else Except.ok { fetched_group_dict_data := some sel,
                         selected_group := some g,
                         error_text := dataLoaderErrorText }

/-! ### Lemmas about `bestMatchSingle` and `subsetSelect` -/

theorem bestMatchSingle_mem {q g : String} {l : List String}
    (h : bestMatchSingle q l = Except.ok g) : g ∈ l := by
  rcases l with _ | ⟨a, as⟩
  · exact Except.noConfusion h
  · set scores := (a :: as).map (fun t => alignScore t q) with hscores
    set m := listMax scores with hm
    have h1 : best_match q (a :: as) false =
        (if 1 < scores.count m then Except.error ambiguousMsg
         else Except.ok (BMatch.one
           ((a :: as).getD (scores.indexOf m) ""))) := by
      rw [best_match]
      rw [if_neg (show ¬((a :: as).isEmpty = true) from by simp)]
      rw [if_pos (show (!false) = true from rfl)]
    rw [bestMatchSingle, h1] at h
    by_cases hcnt : 1 < scores.count m
    · rw [if_pos hcnt] at h
      exact Except.noConfusion h
    · rw [if_neg hcnt] at h
      have hg : (a :: as).getD (scores.indexOf m) "" = g := Except.ok.inj h
      have hmem : m ∈ scores := listMax_mem (by simp [hscores])
      have hidx : scores.indexOf m < scores.length :=
        List.indexOf_lt_length.mpr hmem
      have hidx' : scores.indexOf m < (a :: as).length := by
        rwa [hscores, List.length_map] at hidx
      rw [← hg, List.getD_eq_getElem _ "" hidx']
      exact (a :: as).getElem_mem hidx'

theorem subsetSelect_keys (grp : GroupEntry) (tags : List String)
    (t : String) :
    t ∈ (subsetSelect grp tags).map Prod.fst ↔
      t ∈ tags ∧ t ∈ grp.map Prod.fst := by
  unfold subsetSelect
  rw [List.map_map]
  have hcomp : (Prod.fst ∘ fun tag =>
      (tag, ((dictGet grp tag).getD []))) = id := rfl
  rw [hcomp, List.map_id]
  have hm := mem_map_dedupKeepFirst (id : String → String) t
    (tags.filter (fun tag => tag ∈ List.map Prod.fst grp))
  rw [List.map_id, List.map_id] at hm
  rw [hm, List.mem_filter]
  simp

/-! ## Claim C9 — the `Foundation` initialization guard -/

/-- C9: if any attribute of a `DataLoader` instance holds no value, every
post-initialization accessor (here `get_data_summary`, which runs
`Foundation._check_loaded` first) raises the construction error carrying
the instance's `error_text`, regardless of the filesystem; and the guard
passes exactly when every attribute holds a value, so a
partially-initialized instance fails identically to an uninitialized
one. -/
theorem c9_uninitialized_guard (inst : DLInst) (dataLoc : String)
    (env : XlsxEnv) :
    ((∃ p ∈ dlAttrs inst, p.2 = false) →
      get_data_summary inst dataLoc env = Except.error inst.error_text) ∧
    (checkLoaded (dlAttrs inst) inst.error_text = Except.ok () ↔
      ∀ p ∈ dlAttrs inst, p.2 = true) := by
  constructor
  · rintro ⟨p, hp, hfalse⟩
    have hnall : ¬((dlAttrs inst).all (fun p => p.2) = true) := by
      intro hall
      have := List.all_eq_true.mp hall p hp
      rw [hfalse] at this
      exact Bool.false_ne_true this
    have hall : (dlAttrs inst).all (fun p => p.2) = false :=
      Bool.eq_false_iff.mpr hnall
    simp [get_data_summary, checkLoaded, hall]
  · rw [checkLoaded]
    by_cases hall : (dlAttrs inst).all (fun p => p.2) = true
    · rw [if_pos hall]
      exact iff_of_true rfl (List.all_eq_true.mp hall)
    · rw [if_neg hall]
      exact iff_of_false (fun h => Except.noConfusion h)
        (fun hforall => hall (List.all_eq_true.mpr hforall))

/-- Witness for C9: `get_data_summary()` on a freshly constructed
`DataLoader()` fails with the class's uninitialized-use error. -/
theorem c9_uninitialized_guard_witness :
    get_data_summary freshDataLoader ""
      { pathExists := fun _ => false, columns := fun _ => [] } =
      Except.error dataLoaderErrorText :=
  (c9_uninitialized_guard freshDataLoader ""
    { pathExists := fun _ => false, columns := fun _ => [] }).1
    ⟨("fetched_group_dict_data", false), by decide, rfl⟩

/-! ## Claim C5 — `DataLoader.fetch_data` subset handling -/

/-- C5: once the group resolves by fuzzy match, `fetch_data` raises the
invalid-subset-type error on a `subset_filter` that is neither `None` nor
a string nor a list; with `None` it selects all tags of the group (an
empty result raises the no-matching-subset error); a string behaves as its
singleton list; with a list it selects exactly the named tags present in
the group, raising the no-matching-subset error when that selection is
empty and otherwise returning a new instance holding the selection and the
resolved group name. -/
theorem c5_fetch_data_subsets (catalog : Catalog) (gq g : String)
    (hres : bestMatchSingle gq (catalog.map Prod.fst) = Except.ok g) :
    (fetch_data catalog gq SubsetFilter.otherV =
      Except.error invalidSubsetMsg) ∧
    (((dictGet catalog g).getD [] ≠ [] →
      fetch_data catalog gq SubsetFilter.noneV =
        Except.ok ⟨some ((dictGet catalog g).getD []), some g,
          dataLoaderErrorText⟩) ∧
     ((dictGet catalog g).getD [] = [] →
      fetch_data catalog gq SubsetFilter.noneV =
        Except.error noSubsetMatchMsg)) ∧
    (∀ s₀, fetch_data catalog gq (SubsetFilter.strV s₀) =
      fetch_data catalog gq (SubsetFilter.listV [s₀])) ∧
    (∀ tags,
      (∀ t, t ∈ List.map Prod.fst
          (subsetSelect ((dictGet catalog g).getD []) tags) ↔
        t ∈ tags ∧ t ∈ List.map Prod.fst ((dictGet catalog g).getD [])) ∧
      (subsetSelect ((dictGet catalog g).getD []) tags ≠ [] →
        fetch_data catalog gq (SubsetFilter.listV tags) =
          Except.ok ⟨some (subsetSelect ((dictGet catalog g).getD []) tags),
            some g, dataLoaderErrorText⟩) ∧
      (subsetSelect ((dictGet catalog g).getD []) tags = [] →
        fetch_data catalog gq (SubsetFilter.listV tags) =
          Except.error noSubsetMatchMsg)) := by
  refine ⟨?_, ⟨?_, ?_⟩, ?_, ?_⟩
  · simp [fetch_data, hres]
  · intro hne
    simp [fetch_data, hres, List.isEmpty_eq_false.mpr hne]
  · intro he
    simp [fetch_data, hres, he]
  · intro s₀
    simp [fetch_data, hres]
  · intro tags
    refine ⟨fun t => subsetSelect_keys _ tags t, ?_, ?_⟩
    · intro hne
      simp [fetch_data, hres, List.isEmpty_eq_false.mpr hne]
    · intro he
      simp [fetch_data, hres, he]

set_option maxRecDepth 8000 in
/-- Witness for C5, on the catalog
`{wu_group: {GBM: {GBC: g.csv, RCM: r.csv}}, biaan_group: {X1: {}}}` with
query `"wu"` (which resolves to `wu_group`). -/
theorem c5_fetch_data_subsets_witness :
    fetch_data
        [("wu_group", [("GBM", [("GBC", "g.csv"), ("RCM", "r.csv")])]),
         ("biaan_group", [("X1", [])])] "wu" SubsetFilter.otherV =
      Except.error invalidSubsetMsg ∧
    fetch_data
        [("wu_group", [("GBM", [("GBC", "g.csv"), ("RCM", "r.csv")])]),
         ("biaan_group", [("X1", [])])] "wu" (SubsetFilter.listV ["GBM"]) =
      Except.ok ⟨some (subsetSelect
          ((dictGet [("wu_group",
              [("GBM", [("GBC", "g.csv"), ("RCM", "r.csv")])]),
            ("biaan_group", [("X1", [])])] "wu_group").getD []) ["GBM"]),
        some "wu_group", dataLoaderErrorText⟩ :=
  ⟨(c5_fetch_data_subsets
      [("wu_group", [("GBM", [("GBC", "g.csv"), ("RCM", "r.csv")])]),
       ("biaan_group", [("X1", [])])] "wu" "wu_group" rfl).1,
   (((c5_fetch_data_subsets
      [("wu_group", [("GBM", [("GBC", "g.csv"), ("RCM", "r.csv")])]),
       ("biaan_group", [("X1", [])])] "wu" "wu_group" rfl).2.2.2
      ["GBM"]).2.1) (by decide)⟩

/-! ## `dataloader.py` — `_validate_data_dict` (FACS section)

The nested input dictionary is modelled as an association list
(sample → {required-key: path}); the source also rejects non-dict values,
which cannot be represented here (the model's values are always dicts).
Assembly tokens come from `Path(path).stem.split("__")[1]`. -/

/-- `Path(p).stem.split("__")[1]` — `none` models the `IndexError` when the
stem has no `__`. -/
def assemblyToken (path : String) : Option String :=
  (pySplit "__" (pathStem path)).get? 1

/-- Error message for inconsistent assemblies within one sample (the
source interpolates the sample name; elided). -/
def inconsistentAssemblyMsg : String :=
  "Genomic Assemblies for RCM and GBC are inconsistent!"

/-- Error message for a sample dict missing a required key (the source
interpolates the key and sample names; elided). -/
def missingReqKeyMsg : String := "required key must be in sample dict!"

/-- Stand-in for the `IndexError` of `split("__")[1]` (or of
`list_assembly_genome_verify[0]` when the required-key list is empty). -/
def indexErrMsg : String := "IndexError: list index out of range"

/-- The assembly-token list collected for a sample: one token per required
key, in required-key order; a missing key or `__`-less stem raises. -/
def collectTokens (subdict : List (String × String)) :
    List String → Except String (List String)
  | [] => Except.ok []
  | k :: ks =>
      match dictGet subdict k with
      | none => Except.error missingReqKeyMsg
      | some p =>
          match assemblyToken p with
          | none => Except.error indexErrMsg
          | some t =>
              match collectTokens subdict ks with
              | Except.error e => Except.error e
              | Except.ok ts => Except.ok (t :: ts)

/-- `dict_validated[req_key].update({sample+tag: subdict[req_key]})` for
every required key. -/
def addSample (dv : List (String × List (String × String)))
    (reqKeys : List String) (sample suffix : String)
    (subdict : List (String × String)) :
    List (String × List (String × String)) :=
  reqKeys.foldl
    (fun acc k => dictSet acc k
      (dictSet ((dictGet acc k).getD []) (sample ++ suffix)
        ((dictGet subdict k).getD "")))
    dv

/-- The per-sample loop of `_validate_data_dict`: thread the validated
dictionary and the pinned genome through the samples. -/
def validateGo (reqKeys : List String) (suffix : String) :
    List (String × List (String × String)) →
    List (String × List (String × String)) → Option String →
    Except String ((List (String × List (String × String))) × Option String)
  | [], dv, setGenome => Except.ok (dv, setGenome)
  | (sample, subdict) :: rest, dv, setGenome =>
      match collectTokens subdict reqKeys with
      | Except.error e => Except.error e
      | Except.ok tokens =>
          if 1 < (dedupKeepFirst id tokens).length then
            Except.error inconsistentAssemblyMsg
          else
            match tokens.head? with
            | none => Except.error indexErrMsg
            | some t0 =>
                match setGenome with
                | none =>
                    validateGo reqKeys suffix rest
                      (addSample dv reqKeys sample suffix subdict) (some t0)
                | some g =>
                    if g = t0 then
                      validateGo reqKeys suffix rest
                        (addSample dv reqKeys sample suffix subdict) (some g)
                    else validateGo reqKeys suffix rest dv (some g)

/-- `_validate_data_dict(input_dict, req_keys_subdict, add_tag)`. -/
def _validate_data_dict (input : List (String × List (String × String)))
    (reqKeys : List String) (addTag : Option String) :
    Except String ((List (String × List (String × String))) × Option String) :=
  let suffix := match addTag with
                | none => ""
                | some t => "__" ++ t
  validateGo reqKeys suffix input (reqKeys.map (fun k => (k, []))) none

/-- Total accessor for a sample's assembly token at one required key
(meaningful under the well-formedness hypotheses below). -/
def sampleToken (subdict : List (String × String)) (k : String) : String :=
  (assemblyToken ((dictGet subdict k).getD "")).getD ""

/-- A sample is internally inconsistent when its required-key files carry
more than one distinct assembly token. -/
def inconsSample (reqKeys : List String)
    (subdict : List (String × String)) : Prop :=
  1 < (dedupKeepFirst id (reqKeys.map (sampleToken subdict))).length

instance (reqKeys : List String) (subdict : List (String × String)) :
    Decidable (inconsSample reqKeys subdict) :=
  Nat.decLt _ _

/-- Well-formedness of one sample: every required key is present and its
path's stem carries an assembly token (i.e. neither the missing-key
`ValueError` nor the `IndexError` branch fires). -/
def wfSample (reqKeys : List String)
    (subdict : List (String × String)) : Prop :=
  ∀ k ∈ reqKeys, ((dictGet subdict k).bind assemblyToken).isSome = true

instance (reqKeys : List String) (subdict : List (String × String)) :
    Decidable (wfSample reqKeys subdict) :=
  List.decidableBAll _ reqKeys

/-! ### Lemmas for `_validate_data_dict` -/

theorem collectTokens_wf {subdict : List (String × String)} :
    ∀ {reqKeys : List String}, wfSample reqKeys subdict →
    collectTokens subdict reqKeys =
      Except.ok (reqKeys.map (sampleToken subdict))
  | [], _ => rfl
  | k :: ks, hwf => by
      have hk := hwf k (List.mem_cons_self _ _)
      rcases hget : dictGet subdict k with _ | path
      · rw [hget] at hk
        simp at hk
      rcases ht : assemblyToken path with _ | t
      · rw [hget] at hk
        simp [ht] at hk
      have hrest : wfSample ks subdict := fun k' hk' =>
        hwf k' (List.mem_cons_of_mem _ hk')
      have hst : sampleToken subdict k = t := by
        rw [sampleToken, hget, Option.getD_some, ht, Option.getD_some]
      simp only [collectTokens, hget, ht, collectTokens_wf hrest,
        List.map_cons, hst]

theorem dictGet_cons {α : Type} (a : String) (b : α)
    (rest : List (String × α)) (k' : String) :
    dictGet ((a, b) :: rest) k' =
      if a = k' then some b else dictGet rest k' := by
  by_cases h : a = k' <;> simp [dictGet, List.find?_cons, h]

theorem dictGet_dictSet {α : Type} (d : List (String × α)) (k k' : String)
    (v : α) :
    dictGet (dictSet d k v) k' =
      if k' = k then some v else dictGet d k' := by
  induction d with
  | nil =>
      rw [dictSet, dictGet_cons]
      by_cases h : k' = k
      · rw [if_pos (h ▸ rfl), if_pos h]
      · rw [if_neg (fun hc => h hc.symm), if_neg h]
  | cons p rest ih =>
      rcases p with ⟨pk, pv⟩
      rw [dictSet]
      by_cases hpk : pk = k
      · subst hpk
        rw [if_pos rfl, dictGet_cons, dictGet_cons]
        by_cases h : pk = k'
        · rw [if_pos h, if_pos h.symm]
        · rw [if_neg h, if_neg (fun hc => h hc.symm), if_neg h]
      · rw [if_neg hpk, dictGet_cons, dictGet_cons]
        by_cases h : pk = k'
        · rw [if_pos h, if_neg (fun hc => hpk (h.trans hc)), if_pos h]
        · rw [if_neg h, if_neg h, ih]

theorem mem_keys_dictSet {α : Type} (d : List (String × α)) (k x : String)
    (v : α) :
    x ∈ List.map Prod.fst (dictSet d k v) ↔
      x ∈ List.map Prod.fst d ∨ x = k := by
  induction d with
  | nil => simp [dictSet]
  | cons p rest ih =>
      rcases p with ⟨pk, pv⟩
      rw [dictSet]
      by_cases hpk : pk = k
      · rw [if_pos hpk]
        subst hpk
        simp only [List.map_cons, List.mem_cons]
        tauto
      · rw [if_neg hpk]
        simp only [List.map_cons, List.mem_cons, ih]
        tauto

theorem addSample_mem (s suffix : String)
    (subdict : List (String × String)) :
    ∀ (reqKeys : List String)
      (dv : List (String × List (String × String))) (k x : String),
    (x ∈ List.map Prod.fst
        ((dictGet (addSample dv reqKeys s suffix subdict) k).getD []) ↔
      x ∈ List.map Prod.fst ((dictGet dv k).getD []) ∨
        (k ∈ reqKeys ∧ x = s ++ suffix))
  | [], dv, k, x => by simp [addSample]
  | k0 :: ks, dv, k, x => by
      have hstep : addSample dv (k0 :: ks) s suffix subdict =
          addSample (dictSet dv k0
            (dictSet ((dictGet dv k0).getD []) (s ++ suffix)
              ((dictGet subdict k0).getD ""))) ks s suffix subdict := by
        rw [addSample, List.foldl_cons, addSample]
      rw [hstep, addSample_mem s suffix subdict ks _ k x,
        dictGet_dictSet]
      by_cases hk : k = k0
      · subst hk
        rw [if_pos rfl, Option.getD_some, mem_keys_dictSet]
        constructor
        · rintro ((h | h) | h)
          · exact Or.inl h
          · exact Or.inr ⟨List.mem_cons_self _ _, h⟩
          · exact Or.inr ⟨List.mem_cons_of_mem _ h.1, h.2⟩
        · rintro (h | ⟨h1, h2⟩)
          · exact Or.inl (Or.inl h)
          · exact Or.inl (Or.inr h2)
      · rw [if_neg hk]
        constructor
        · rintro (h | h)
          · exact Or.inl h
          · exact Or.inr ⟨List.mem_cons_of_mem _ h.1, h.2⟩
        · rintro (h | ⟨h1, h2⟩)
          · exact Or.inl h
          · rcases List.mem_cons.mp h1 with h1 | h1
            · exact absurd h1 hk
            · exact Or.inr ⟨h1, h2⟩

theorem one_lt_dedup_iff {α : Type} [DecidableEq α] (l : List α) :
    1 < (dedupKeepFirst id l).length ↔ ∃ a ∈ l, ∃ b ∈ l, a ≠ b := by
  have hmem : ∀ x, x ∈ dedupKeepFirst id l ↔ x ∈ l := by
    intro x
    have h := mem_map_dedupKeepFirst (id : α → α) x l
    rwa [List.map_id, List.map_id] at h
  have hnd : (dedupKeepFirst id l).Nodup := by
    have h := nodup_map_dedupKeepFirst (id : α → α) l
    rwa [List.map_id] at h
  constructor
  · intro hlen
    rcases hd : dedupKeepFirst id l with _ | ⟨a, _ | ⟨b, t⟩⟩
    · rw [hd] at hlen
      simp at hlen
    · rw [hd] at hlen
      simp at hlen
    · refine ⟨a, (hmem a).mp (hd ▸ List.mem_cons_self _ _),
        b, (hmem b).mp (hd ▸ List.mem_cons_of_mem _
          (List.mem_cons_self _ _)), ?_⟩
      have := hd ▸ hnd
      intro hab
      exact (List.nodup_cons.mp this).1 (hab ▸ List.mem_cons_self _ _)
  · rintro ⟨a, ha, b, hb, hab⟩
    by_contra hlen
    push_neg at hlen
    rcases hd : dedupKeepFirst id l with _ | ⟨x, _ | ⟨y, t⟩⟩
    · exact absurd ((hd ▸ hmem a).mpr ha) (List.not_mem_nil a)
    · have ha' : a = x := List.mem_singleton.mp ((hd ▸ hmem a).mpr ha)
      have hb' : b = x := List.mem_singleton.mp ((hd ▸ hmem b).mpr hb)
      exact hab (ha'.trans hb'.symm)
    · rw [hd] at hlen
      simp at hlen

theorem dictGet_init_nil : ∀ (ks' : List String) (k : String),
    ((dictGet (ks'.map (fun k' =>
        (k', ([] : List (String × String))))) k).getD []) = []
  | [], k => rfl
  | k' :: ks', k => by
      rw [List.map_cons, dictGet_cons]
      by_cases h : k' = k
      · rw [if_pos h, Option.getD_some]
      · rw [if_neg h]
        exact dictGet_init_nil ks' k

theorem validateGo_some_spec (k0 : String) (ks : List String)
    (suffix : String) :
    ∀ (rest : List (String × List (String × String)))
      (dv : List (String × List (String × String))) (g : String),
    (∀ p ∈ rest, wfSample (k0 :: ks) p.2) →
    ((validateGo (k0 :: ks) suffix rest dv (some g) =
        Except.error inconsistentAssemblyMsg ↔
      ∃ p ∈ rest, inconsSample (k0 :: ks) p.2) ∧
     (∀ dv' g', validateGo (k0 :: ks) suffix rest dv (some g) =
          Except.ok (dv', g') →
        g' = some g ∧
        ∀ k x, (x ∈ List.map Prod.fst ((dictGet dv' k).getD []) ↔
          x ∈ List.map Prod.fst ((dictGet dv k).getD []) ∨
          (k ∈ (k0 :: ks) ∧ ∃ s sub, (s, sub) ∈ rest ∧
            sampleToken sub k0 = g ∧ x = s ++ suffix))))
  | [], dv, g, _ => by
      constructor
      · exact iff_of_false (fun h => Except.noConfusion h)
          (by rintro ⟨p, hp, _⟩; exact absurd hp (List.not_mem_nil p))
      · intro dv' g' h
        have h' : (dv, some g) = (dv', g') := Except.ok.inj h
        have hdv : dv = dv' := congrArg Prod.fst h'
        have hg : some g = g' := congrArg Prod.snd h'
        subst hdv
        refine ⟨hg.symm, fun k x => ?_⟩
        constructor
        · exact Or.inl
        · rintro (h1 | ⟨_, s, sub, hmem, _⟩)
          · exact h1
          · exact absurd hmem (List.not_mem_nil _)
  | (s, sub) :: rest, dv, g, hwf => by
      have hwfp : wfSample (k0 :: ks) sub :=
        hwf (s, sub) (List.mem_cons_self _ _)
      have hwfr : ∀ p ∈ rest, wfSample (k0 :: ks) p.2 := fun p hp =>
        hwf p (List.mem_cons_of_mem _ hp)
      have hcol := collectTokens_wf hwfp
      have hstep : validateGo (k0 :: ks) suffix ((s, sub) :: rest) dv
          (some g) =
          (if 1 < (dedupKeepFirst id
              ((k0 :: ks).map (sampleToken sub))).length
           then Except.error inconsistentAssemblyMsg
           else if g = sampleToken sub k0 then
             validateGo (k0 :: ks) suffix rest
               (addSample dv (k0 :: ks) s suffix sub) (some g)
           else validateGo (k0 :: ks) suffix rest dv (some g)) := by
        simp only [validateGo, hcol, List.map_cons, List.head?_cons]
      rw [hstep]
      by_cases hinc : 1 < (dedupKeepFirst id
          ((k0 :: ks).map (sampleToken sub))).length
      · rw [if_pos hinc]
        constructor
        · exact iff_of_true rfl ⟨(s, sub), List.mem_cons_self _ _, hinc⟩
        · intro dv' g' h
          exact absurd h (fun hc => Except.noConfusion hc)
      · rw [if_neg hinc]
        have hni : ¬inconsSample (k0 :: ks) sub := hinc
        by_cases hg : g = sampleToken sub k0
        · rw [if_pos hg]
          obtain ⟨ih_err, ih_ok⟩ := validateGo_some_spec k0 ks suffix rest
            (addSample dv (k0 :: ks) s suffix sub) g hwfr
          constructor
          · rw [ih_err]
            constructor
            · rintro ⟨p, hp, hpi⟩
              exact ⟨p, List.mem_cons_of_mem _ hp, hpi⟩
            · rintro ⟨p, hp, hpi⟩
              rcases List.mem_cons.mp hp with rfl | hp'
              · exact absurd hpi hni
              · exact ⟨p, hp', hpi⟩
          · intro dv' g' h
            obtain ⟨hg', hmem⟩ := ih_ok dv' g' h
            refine ⟨hg', fun k x => ?_⟩
            rw [hmem k x, addSample_mem]
            constructor
            · rintro ((h1 | h1) | ⟨hk, s', sub', hm, ht, hx⟩)
              · exact Or.inl h1
              · exact Or.inr ⟨h1.1, s, sub, List.mem_cons_self _ _,
                  hg.symm, h1.2⟩
              · exact Or.inr ⟨hk, s', sub',
                  List.mem_cons_of_mem _ hm, ht, hx⟩
            · rintro (h1 | ⟨hk, s', sub', hm, ht, hx⟩)
              · exact Or.inl (Or.inl h1)
              · rcases List.mem_cons.mp hm with heq | hm'
                · have hs : s' = s := congrArg Prod.fst heq
                  exact Or.inl (Or.inr ⟨hk, hs ▸ hx⟩)
                · exact Or.inr ⟨hk, s', sub', hm', ht, hx⟩
        · rw [if_neg hg]
          obtain ⟨ih_err, ih_ok⟩ := validateGo_some_spec k0 ks suffix rest
            dv g hwfr
          constructor
          · rw [ih_err]
            constructor
            · rintro ⟨p, hp, hpi⟩
              exact ⟨p, List.mem_cons_of_mem _ hp, hpi⟩
            · rintro ⟨p, hp, hpi⟩
              rcases List.mem_cons.mp hp with rfl | hp'
              · exact absurd hpi hni
              · exact ⟨p, hp', hpi⟩
          · intro dv' g' h
            obtain ⟨hg', hmem⟩ := ih_ok dv' g' h
            refine ⟨hg', fun k x => ?_⟩
            rw [hmem k x]
            constructor
            · rintro (h1 | ⟨hk, s', sub', hm, ht, hx⟩)
              · exact Or.inl h1
              · exact Or.inr ⟨hk, s', sub',
                  List.mem_cons_of_mem _ hm, ht, hx⟩
            · rintro (h1 | ⟨hk, s', sub', hm, ht, hx⟩)
              · exact Or.inl h1
              · rcases List.mem_cons.mp hm with heq | hm'
                · have hsub : sub' = sub := congrArg Prod.snd heq
                  exact absurd (hsub ▸ ht).symm hg
                · exact Or.inr ⟨hk, s', sub', hm', ht, hx⟩

theorem inconsSample_iff (reqKeys : List String)
    (sub : List (String × String)) :
    inconsSample reqKeys sub ↔
      ∃ a ∈ reqKeys, ∃ b ∈ reqKeys,
        sampleToken sub a ≠ sampleToken sub b := by
  unfold inconsSample
  rw [one_lt_dedup_iff]
  constructor
  · rintro ⟨x, hx, y, hy, hxy⟩
    rcases List.mem_map.mp hx with ⟨a, ha, rfl⟩
    rcases List.mem_map.mp hy with ⟨b, hb, rfl⟩
    exact ⟨a, ha, b, hb, hxy⟩
  · rintro ⟨a, ha, b, hb, hab⟩
    exact ⟨_, List.mem_map_of_mem _ ha, _, List.mem_map_of_mem _ hb, hab⟩

/-! ## Claim C6 — `_validate_data_dict` assembly consistency -/

/-- C6: under well-formed input (every sample dict has every required key
and a `__`-delimited assembly token), `_validate_data_dict` raises the
inconsistent-assembly error iff some sample's required-type files carry
differing assembly tokens among themselves; on success the pinned genome
is the first sample's token, and for every required key the output
contains exactly the (suffixed) samples whose token equals the first
sample's token — later internally-consistent samples with a different
token are silently dropped. -/
theorem c6_validate_assembly
    (input : List (String × List (String × String)))
    (k0 : String) (ks : List String) (addTag : Option String)
    (hwf : ∀ p ∈ input, wfSample (k0 :: ks) p.2) :
    ((_validate_data_dict input (k0 :: ks) addTag =
        Except.error inconsistentAssemblyMsg) ↔
      ∃ p ∈ input, ∃ a ∈ (k0 :: ks), ∃ b ∈ (k0 :: ks),
        sampleToken p.2 a ≠ sampleToken p.2 b) ∧
    (∀ s0 sub0 rest dv g,
      input = (s0, sub0) :: rest →
      _validate_data_dict input (k0 :: ks) addTag = Except.ok (dv, g) →
      g = some (sampleToken sub0 k0) ∧
      ∀ k x, (x ∈ List.map Prod.fst ((dictGet dv k).getD []) ↔
        k ∈ (k0 :: ks) ∧ ∃ s sub, (s, sub) ∈ input ∧
          sampleToken sub k0 = sampleToken sub0 k0 ∧
          x = s ++ (match addTag with
                    | none => ""
                    | some t => "__" ++ t))) := by
  set suffix := (match addTag with
                 | none => ""
                 | some t => "__" ++ t) with hsuf
  have hun : _validate_data_dict input (k0 :: ks) addTag =
      validateGo (k0 :: ks) suffix input
        ((k0 :: ks).map (fun k => (k, []))) none := rfl
  rcases input with _ | ⟨⟨s0, sub0⟩, rest⟩
  · constructor
    · rw [hun]
      exact iff_of_false (fun h => Except.noConfusion h)
        (by rintro ⟨p, hp, _⟩; exact absurd hp (List.not_mem_nil p))
    · intro s0 sub0 rest dv g hin
      exact absurd hin (by simp)
  · have hwfp : wfSample (k0 :: ks) sub0 :=
      hwf (s0, sub0) (List.mem_cons_self _ _)
    have hwfr : ∀ p ∈ rest, wfSample (k0 :: ks) p.2 := fun p hp =>
      hwf p (List.mem_cons_of_mem _ hp)
    have hcol := collectTokens_wf hwfp
    have hstep0 : validateGo (k0 :: ks) suffix ((s0, sub0) :: rest)
        ((k0 :: ks).map (fun k => (k, []))) none =
        (if 1 < (dedupKeepFirst id
            ((k0 :: ks).map (sampleToken sub0))).length
         then Except.error inconsistentAssemblyMsg
         else validateGo (k0 :: ks) suffix rest
           (addSample ((k0 :: ks).map (fun k => (k, []))) (k0 :: ks)
             s0 suffix sub0) (some (sampleToken sub0 k0))) := by
      simp only [validateGo, hcol, List.map_cons, List.head?_cons]
    by_cases hinc : 1 < (dedupKeepFirst id
        ((k0 :: ks).map (sampleToken sub0))).length
    · constructor
      · rw [hun, hstep0, if_pos hinc]
        exact iff_of_true rfl ⟨(s0, sub0), List.mem_cons_self _ _,
          (inconsSample_iff _ _).mp hinc⟩
      · intro s0' sub0' rest' dv g hin hok
        rw [hun, hstep0, if_pos hinc] at hok
        exact absurd hok (fun hc => Except.noConfusion hc)
    · obtain ⟨ih_err, ih_ok⟩ := validateGo_some_spec k0 ks suffix rest
        (addSample ((k0 :: ks).map (fun k => (k, []))) (k0 :: ks)
          s0 suffix sub0) (sampleToken sub0 k0) hwfr
      constructor
      · rw [hun, hstep0, if_neg hinc, ih_err]
        constructor
        · rintro ⟨p, hp, hpi⟩
          exact ⟨p, List.mem_cons_of_mem _ hp,
            (inconsSample_iff _ _).mp hpi⟩
        · rintro ⟨p, hp, hpair⟩
          have hpi : inconsSample (k0 :: ks) p.2 :=
            (inconsSample_iff _ _).mpr hpair
          rcases List.mem_cons.mp hp with rfl | hp'
          · exact absurd hpi hinc
          · exact ⟨p, hp', hpi⟩
      · intro s0' sub0' rest' dv g hin hok
        injection hin with h1 h2
        injection h1 with hs hsub
        subst hs
        subst hsub
        subst h2
        rw [hun, hstep0, if_neg hinc] at hok
        obtain ⟨hg', hmem⟩ := ih_ok dv g hok
        refine ⟨hg', fun k x => ?_⟩
        rw [hmem k x, addSample_mem, dictGet_init_nil, List.map_nil]
        constructor
        · rintro ((h1 | ⟨hk, hx⟩) | ⟨hk, s', sub', hm, ht, hx⟩)
          · exact absurd h1 (List.not_mem_nil x)
          · exact ⟨hk, s0, sub0, List.mem_cons_self _ _, rfl, hx⟩
          · exact ⟨hk, s', sub', List.mem_cons_of_mem _ hm, ht, hx⟩
        · rintro ⟨hk, s', sub', hm, ht, hx⟩
          rcases List.mem_cons.mp hm with heq | hm'
          · have hs' : s' = s0 := congrArg Prod.fst heq
            refine Or.inl (Or.inr ⟨hk, ?_⟩)
            rw [← hs']
            exact hx
          · exact Or.inr ⟨hk, s', sub', hm', ht, hx⟩

set_option maxRecDepth 8000 in
/-- Witness for C6: the spec's own scenarios — an entry `x` pairing tokens
`hg19_1` (RCM) and `hg38_1` (GBC) raises the inconsistent-assembly error;
with both agreeing, a later self-consistent `hg38_1` entry `y` is dropped
and the genome pinned by `x` is returned. -/
theorem c6_validate_assembly_witness :
    _validate_data_dict
        [("x", [("RCM", "x__hg19_1__RCM.csv"),
                ("GBC", "x__hg38_1__GBC.csv")])]
        ["RCM", "GBC"] none = Except.error inconsistentAssemblyMsg ∧
    some "hg19_1" =
      some (sampleToken
        [("RCM", "x__hg19_1__RCM.csv"), ("GBC", "x__hg19_1__GBC.csv")]
        "RCM") := by
  constructor
  · exact ((c6_validate_assembly
      [("x", [("RCM", "x__hg19_1__RCM.csv"),
              ("GBC", "x__hg38_1__GBC.csv")])]
      "RCM" ["GBC"] none (by decide)).1).mpr
      ⟨("x", [("RCM", "x__hg19_1__RCM.csv"),
              ("GBC", "x__hg38_1__GBC.csv")]),
        by decide, "RCM", by decide, "GBC", by decide, by decide⟩
  · exact ((c6_validate_assembly
      [("x", [("RCM", "x__hg19_1__RCM.csv"),
              ("GBC", "x__hg19_1__GBC.csv")]),
       ("y", [("RCM", "y__hg38_1__RCM.csv"),
              ("GBC", "y__hg38_1__GBC.csv")])]
      "RCM" ["GBC"] (some "mult_data") (by decide)).2
      "x" [("RCM", "x__hg19_1__RCM.csv"), ("GBC", "x__hg19_1__GBC.csv")]
      [("y", [("RCM", "y__hg38_1__RCM.csv"),
              ("GBC", "y__hg38_1__GBC.csv")])]
      [("RCM", [("x__mult_data", "x__hg19_1__RCM.csv")]),
       ("GBC", [("x__mult_data", "x__hg19_1__GBC.csv")])]
      (some "hg19_1") rfl rfl).1

/-! ## `dataloader_utility.py` — `_get_data_available`

The configuration handling (`dataloader.ini`, `pyomics`) and the
filesystem walk are I/O; the scan logic is embedded over its result: the
list of immediate subdirectories (group name, list of `*.csv` stems in
glob order).  `dict_available_genomic_files` maps each stem to its path;
paths are modelled by their stems.  The regular expression
`f"{tags}__[a-zA-Z]+_[0-9]+__{data_type}"` is matched with `re.match`
(anchored at the start, arbitrary trailing text); the interpolated tag is
treated as literal text (the naming convention's tags contain no regex
metacharacters).  `re.match(...).group()` is the matched prefix, which the
source then uses as a key into the stem dictionary — a `KeyError` when a
stem matches the pattern only as a proper prefix. -/

/-- Parse `[a-zA-Z]+_[0-9]+__<ty>` after stripping `<tag>__`, maximal-munch
(no backtracking is needed: the characters after each `+`-group are never
of that group's class).  Returns (letters, digits, rest-of-stem). -/
def reTagParse (tag ty : List Char) (cs : List Char) :
    Option (List Char × List Char × List Char) :=
  match dropLit tag cs with
  | none => none
  | some r1 =>
  match dropLit ['_', '_'] r1 with
  | none => none
  | some r2 =>
  match r2.takeWhile Char.isAlpha with
  | [] => none
  | l0 :: ls =>
  match dropLit ['_'] (r2.dropWhile Char.isAlpha) with
  | none => none
  | some r3 =>
  match r3.takeWhile Char.isDigit with
  | [] => none
  | d0 :: ds =>
  match dropLit ('_' :: '_' :: ty) (r3.dropWhile Char.isDigit) with
  | none => none
  | some r4 => some (l0 :: ls, d0 :: ds, r4)

/-- The text matched by the regular expression (its `.group()`). -/
def reTagGroupChars (tag ty L D : List Char) : List Char :=
  tag ++ '_' :: '_' :: (L ++ '_' :: (D ++ '_' :: '_' :: ty))

/-- `re.match(f"{tag}__[a-zA-Z]+_[0-9]+__{ty}", stem)`, returning
`.group()` on success. -/
def reTagMatch (tag ty stem : String) : Option String :=
  (reTagParse tag.data ty.data stem.data).map
    (fun p => String.mk (reTagGroupChars tag.data ty.data p.1 p.2.1))

/-- The dataset tag of a stem: the text before the first `__`. -/
def firstSegOf (stem : String) : String :=
  (pySplit "__" stem).headD ""

/-- `set(...)` of the per-stem tags.  Python's set iteration order is
unspecified; first-occurrence order is chosen here — membership in the
catalog, which the claims are about, does not depend on it. -/
def tagsOf (stems : List String) : List String :=
  dedupKeepFirst id (stems.map firstSegOf)

/-- Result of the per-(tag, type) regex check: no stem matches, or the
first match's `.group()` resolves in the stem dictionary, or it does not
(`KeyError`). -/
inductive TTRes where
  | noMatch : TTRes
  | found : String → TTRes
  | keyErr : TTRes
  deriving DecidableEq, Repr

/-- Stand-in for the `KeyError` raised when `list_match[0]` (the matched
prefix) is not itself a stem. -/
def keyErrMsg : String := "KeyError: matched prefix is not a stem"

/-- Error message for a data root with no subdirectories. -/
def emptyRootMsg : String := "data_loc does not contain any directories"

/-- One (tag, required-type) check: scan the stems in order with
`re.match`; with a match, look its `.group()` up among the stems. -/
def buildTypeRes (stems : List String) (tag ty : String) : TTRes :=
  match stems.filterMap (fun st => reTagMatch tag ty st) with
  | [] => TTRes.noMatch
  | m :: _ => if m ∈ stems then TTRes.found m else TTRes.keyErr

/-- The inner `for data_type in requires_list` loop: the flag records
whether every required type matched; the dict collects the found paths
(modelled by their stems) in required-type order. -/
def buildTagFiles (stems : List String) (tag : String) :
    List String → Except String (Bool × TagFiles)
  | [] => Except.ok (true, [])
  | ty :: tys =>
      match buildTypeRes stems tag ty with
      | TTRes.keyErr => Except.error keyErrMsg
      | TTRes.noMatch =>
          match buildTagFiles stems tag tys with
          | Except.error e => Except.error e
          | Except.ok p => Except.ok (false, p.2)
      | TTRes.found pa =>
          match buildTagFiles stems tag tys with
          | Except.error e => Except.error e
          | Except.ok p => Except.ok (p.1, (ty, pa) :: p.2)

/-- The `for tags in set_data_tags` loop: keep a tag when all required
types were found. -/
def buildTags (stems : List String) (req : List String) :
    List String → Except String GroupEntry
  | [] => Except.ok []
  | tag :: tags =>
      match buildTagFiles stems tag req with
      | Except.error e => Except.error e
      | Except.ok (flag, files) =>
          match buildTags stems req tags with
          | Except.error e => Except.error e
          | Except.ok acc =>
              Except.ok (if flag then (tag, files) :: acc else acc)

/-- The per-directory loop of `_get_data_available`: a group is kept only
when it has at least one accepted tag. -/
def scanDirs (req : List String) :
    List (String × List String) → Except String Catalog
  | [] => Except.ok []
  | (g, stems) :: rest =>
      match buildTags stems req (tagsOf stems) with
      | Except.error e => Except.error e
      | Except.ok acc =>
          match scanDirs req rest with
          | Except.error e => Except.error e
          | Except.ok cat =>
              Except.ok (if acc.isEmpty then cat else (g, acc) :: cat)

/-- `_get_data_available(section, defaults)`, given the scanned directory
contents (the configuration resolution and the existence check of the
root are I/O and precede this logic). -/
def _get_data_available (dirs : List (String × List String))
    (req : List String) : Except String Catalog :=
  if dirs.isEmpty then Except.error emptyRootMsg
  else scanDirs req dirs

/-! ### Lemmas for the discovery scan -/

theorem dropLit_append : ∀ (lit r : List Char), dropLit lit (lit ++ r) = some r
  | [], _ => rfl
  | c :: ls, r => by
      rw [List.cons_append, dropLit, if_pos rfl, dropLit_append ls r]

theorem takeWhile_append_of (p : Char → Bool) :
    ∀ (L : List Char) (c : Char) (r : List Char),
    (∀ x ∈ L, p x = true) → p c = false →
    ((L ++ c :: r).takeWhile p = L ∧ (L ++ c :: r).dropWhile p = c :: r)
  | [], c, r, _, hc => by
      simp [List.takeWhile_cons, List.dropWhile_cons, hc]
  | a :: L, c, r, hL, hc => by
      have ha := hL a (List.mem_cons_self _ _)
      have hrec := takeWhile_append_of p L c r
        (fun x hx => hL x (List.mem_cons_of_mem _ hx)) hc
      simp [List.takeWhile_cons, List.dropWhile_cons, ha, hrec.1, hrec.2]

/-- The matched text of a successful `re.match` is itself a full match of
the pattern (matching it leaves no remainder). -/
theorem reTagMatch_group {tag ty stem m : String}
    (h : reTagMatch tag ty stem = some m) :
    reTagMatch tag ty m = some m := by
  unfold reTagMatch at h
  rcases hp : reTagParse tag.data ty.data stem.data with _ | ⟨L, D, rest⟩
  · rw [hp] at h
    exact Option.noConfusion h
  rw [hp] at h
  have hm : String.mk (reTagGroupChars tag.data ty.data L D) = m :=
    Option.some.inj h
  subst hm
  unfold reTagParse at hp
  rcases hd1 : dropLit tag.data stem.data with _ | r1
  · simp [hd1] at hp
  simp only [hd1] at hp
  rcases hd2 : dropLit ['_', '_'] r1 with _ | r2
  · simp [hd2] at hp
  simp only [hd2] at hp
  rcases hL : r2.takeWhile Char.isAlpha with _ | ⟨l0, ls⟩
  · simp [hL] at hp
  simp only [hL] at hp
  rcases hd3 : dropLit ['_'] (r2.dropWhile Char.isAlpha) with _ | r3
  · simp [hd3] at hp
  simp only [hd3] at hp
  rcases hD : r3.takeWhile Char.isDigit with _ | ⟨d0, ds⟩
  · simp [hD] at hp
  simp only [hD] at hp
  rcases hd4 : dropLit ('_' :: '_' :: ty.data)
      (r3.dropWhile Char.isDigit) with _ | r4
  · simp [hd4] at hp
  simp only [hd4, Option.some.injEq] at hp
  have hLval : l0 :: ls = L := congrArg Prod.fst hp
  have hDval : d0 :: ds = D := congrArg Prod.fst (congrArg Prod.snd hp)
  subst hLval
  subst hDval
  have hLa : ∀ x ∈ l0 :: ls, Char.isAlpha x = true := fun x hx =>
    List.mem_takeWhile_imp (hL ▸ hx)
  have hDd : ∀ x ∈ d0 :: ds, Char.isDigit x = true := fun x hx =>
    List.mem_takeWhile_imp (hD ▸ hx)
  have hT1 : ((l0 :: ls) ++ '_' ::
      ((d0 :: ds) ++ '_' :: '_' :: ty.data)).takeWhile Char.isAlpha =
      l0 :: ls :=
    (takeWhile_append_of Char.isAlpha (l0 :: ls) '_' _ hLa (by decide)).1
  have hT2 : ((l0 :: ls) ++ '_' ::
      ((d0 :: ds) ++ '_' :: '_' :: ty.data)).dropWhile Char.isAlpha =
      '_' :: ((d0 :: ds) ++ '_' :: '_' :: ty.data) :=
    (takeWhile_append_of Char.isAlpha (l0 :: ls) '_' _ hLa (by decide)).2
  have hT3 : ((d0 :: ds) ++ '_' :: '_' :: ty.data).takeWhile
      Char.isDigit = d0 :: ds :=
    (takeWhile_append_of Char.isDigit (d0 :: ds) '_' _ hDd (by decide)).1
  have hT4 : ((d0 :: ds) ++ '_' :: '_' :: ty.data).dropWhile
      Char.isDigit = '_' :: '_' :: ty.data :=
    (takeWhile_append_of Char.isDigit (d0 :: ds) '_' _ hDd (by decide)).2
  have e1 : dropLit tag.data (reTagGroupChars tag.data ty.data
      (l0 :: ls) (d0 :: ds)) = some ('_' :: '_' ::
      ((l0 :: ls) ++ '_' :: ((d0 :: ds) ++ '_' :: '_' :: ty.data))) :=
    dropLit_append tag.data _
  have e8 : dropLit ('_' :: '_' :: ty.data) ('_' :: '_' :: ty.data) =
      some [] := by
    have := dropLit_append ('_' :: '_' :: ty.data) []
    rwa [List.append_nil] at this
  have hfull : reTagParse tag.data ty.data
      (reTagGroupChars tag.data ty.data (l0 :: ls) (d0 :: ds)) =
      some (l0 :: ls, d0 :: ds, []) := by
    unfold reTagParse
    simp only [e1, hT1, hT2, hT3, hT4, e8,
      show dropLit ['_', '_'] ('_' :: '_' ::
        ((l0 :: ls) ++ '_' :: ((d0 :: ds) ++ '_' :: '_' :: ty.data))) =
        some ((l0 :: ls) ++ '_' :: ((d0 :: ds) ++ '_' :: '_' :: ty.data))
        from rfl,
      show dropLit ['_'] ('_' :: ((d0 :: ds) ++ '_' :: '_' :: ty.data)) =
        some ((d0 :: ds) ++ '_' :: '_' :: ty.data) from rfl]
  unfold reTagMatch
  rw [show (String.mk (reTagGroupChars tag.data ty.data
      (l0 :: ls) (d0 :: ds))).data =
    reTagGroupChars tag.data ty.data (l0 :: ls) (d0 :: ds) from rfl, hfull]
  rfl

theorem buildTypeRes_found {stems : List String} {tag ty p : String}
    (h : buildTypeRes stems tag ty = TTRes.found p) :
    p ∈ stems ∧ reTagMatch tag ty p = some p := by
  unfold buildTypeRes at h
  rcases hm : stems.filterMap (fun st => reTagMatch tag ty st)
      with _ | ⟨m, ms⟩
  · rw [hm] at h
    exact TTRes.noConfusion h
  simp only [hm] at h
  by_cases hmem : m ∈ stems
  · rw [if_pos hmem] at h
    have hp : m = p := by injection h
    subst hp
    refine ⟨hmem, ?_⟩
    have hmm : m ∈ stems.filterMap (fun st => reTagMatch tag ty st) :=
      hm ▸ List.mem_cons_self _ _
    rcases List.mem_filterMap.mp hmm with ⟨st, _, hst⟩
    exact reTagMatch_group hst
  · rw [if_neg hmem] at h
    exact TTRes.noConfusion h

theorem buildTypeRes_of_full {stems : List String} {tag ty s : String}
    (hs : s ∈ stems) (hfull : reTagMatch tag ty s = some s)
    (hne : buildTypeRes stems tag ty ≠ TTRes.keyErr) :
    ∃ p, buildTypeRes stems tag ty = TTRes.found p := by
  unfold buildTypeRes at hne ⊢
  rcases hm : stems.filterMap (fun st => reTagMatch tag ty st)
      with _ | ⟨m, ms⟩
  · have := List.forall_none_of_filterMap_eq_nil hm s hs
    rw [hfull] at this
    exact Option.noConfusion this
  simp only [hm] at hne ⊢
  by_cases hmem : m ∈ stems
  · exact ⟨m, by rw [if_pos hmem]⟩
  · rw [if_neg hmem] at hne
    exact absurd rfl hne

theorem buildTagFiles_flag {stems : List String} {tag : String} :
    ∀ {req : List String} {flag : Bool} {files : TagFiles},
    buildTagFiles stems tag req = Except.ok (flag, files) →
    (flag = true ↔
      ∀ ty ∈ req, ∃ p, buildTypeRes stems tag ty = TTRes.found p)
  | [], flag, files, h => by
      have h' : ((true : Bool), ([] : TagFiles)) = (flag, files) :=
        Except.ok.inj h
      have hf : flag = true := (congrArg Prod.fst h').symm
      subst hf
      exact iff_of_true rfl (fun ty hty => absurd hty
        (List.not_mem_nil ty))
  | ty :: tys, flag, files, h => by
      rw [buildTagFiles] at h
      rcases hr : buildTypeRes stems tag ty with _ | pa | _ <;> rw [hr] at h
      · rcases hrec : buildTagFiles stems tag tys with e | ⟨fl, d⟩ <;>
          rw [hrec] at h
        · exact Except.noConfusion h
        · have h' : ((false : Bool), d) = (flag, files) := Except.ok.inj h
          have hf : flag = false := (congrArg Prod.fst h').symm
          subst hf
          refine iff_of_false (fun hc => Bool.false_ne_true hc) ?_
          intro hall
          rcases hall ty (List.mem_cons_self _ _) with ⟨p, hp⟩
          rw [hr] at hp
          exact TTRes.noConfusion hp
      · rcases hrec : buildTagFiles stems tag tys with e | ⟨fl, d⟩ <;>
          rw [hrec] at h
        · exact Except.noConfusion h
        · have h' : (fl, (ty, pa) :: d) = (flag, files) := Except.ok.inj h
          have hf : flag = fl := (congrArg Prod.fst h').symm
          subst hf
          rw [buildTagFiles_flag hrec]
          constructor
          · intro hall ty' hty'
            rcases List.mem_cons.mp hty' with rfl | hty''
            · exact ⟨pa, hr⟩
            · exact hall ty' hty''
          · intro hall ty' hty'
            exact hall ty' (List.mem_cons_of_mem _ hty')
      · exact Except.noConfusion h

theorem buildTagFiles_no_keyErr {stems : List String} {tag : String} :
    ∀ {req : List String} {r : Bool × TagFiles},
    buildTagFiles stems tag req = Except.ok r →
    ∀ ty ∈ req, buildTypeRes stems tag ty ≠ TTRes.keyErr
  | [], r, _, ty, hty => absurd hty (List.not_mem_nil ty)
  | ty0 :: tys, r, h, ty, hty => by
      rw [buildTagFiles] at h
      rcases hr : buildTypeRes stems tag ty0 with _ | pa | _ <;>
        rw [hr] at h
      · rcases hrec : buildTagFiles stems tag tys with e | p <;>
          rw [hrec] at h
        · exact Except.noConfusion h
        · rcases List.mem_cons.mp hty with rfl | hty'
          · rw [hr]
            exact fun hc => TTRes.noConfusion hc
          · exact buildTagFiles_no_keyErr hrec ty hty'
      · rcases hrec : buildTagFiles stems tag tys with e | p <;>
          rw [hrec] at h
        · exact Except.noConfusion h
        · rcases List.mem_cons.mp hty with rfl | hty'
          · rw [hr]
            exact fun hc => TTRes.noConfusion hc
          · exact buildTagFiles_no_keyErr hrec ty hty'
      · exact Except.noConfusion h

/-- For a tag the scan actually processed without crashing, acceptance
(the flag being true) is equivalent to every required type having a stem
that fully matches the pattern. -/
theorem accepted_iff_full {stems req : List String} {t : String}
    {fl : Bool} {files : TagFiles}
    (hok : buildTagFiles stems t req = Except.ok (fl, files)) :
    ((∃ files', buildTagFiles stems t req = Except.ok (true, files')) ↔
      ∀ ty ∈ req, ∃ stem ∈ stems, reTagMatch t ty stem = some stem) := by
  have hflag := buildTagFiles_flag hok
  have hkerr := buildTagFiles_no_keyErr hok
  constructor
  · rintro ⟨files', hok'⟩
    rw [hok] at hok'
    have h' : ((fl : Bool), files) = (true, files') := Except.ok.inj hok'
    have hf : fl = true := congrArg Prod.fst h'
    intro ty hty
    rcases (hflag.mp hf) ty hty with ⟨p, hp⟩
    rcases buildTypeRes_found hp with ⟨hmem, hfull⟩
    exact ⟨p, hmem, hfull⟩
  · intro hfull
    have hf : fl = true := hflag.mpr (by
      intro ty hty
      rcases hfull ty hty with ⟨st, hst, hstf⟩
      exact buildTypeRes_of_full hst hstf (hkerr ty hty))
    exact ⟨files, hf ▸ hok⟩

theorem buildTags_processed {stems req : List String} :
    ∀ {tags : List String} {acc : GroupEntry},
    buildTags stems req tags = Except.ok acc →
    ∀ t ∈ tags, ∃ fl files,
      buildTagFiles stems t req = Except.ok (fl, files)
  | [], acc, _, t, ht => absurd ht (List.not_mem_nil t)
  | tag :: tags, acc, h, t, ht => by
      rw [buildTags] at h
      rcases hf : buildTagFiles stems tag req with e | ⟨fl, files⟩ <;>
        rw [hf] at h
      · exact Except.noConfusion h
      · rcases hrec : buildTags stems req tags with e | acc' <;>
          rw [hrec] at h
        · exact Except.noConfusion h
        · rcases List.mem_cons.mp ht with rfl | ht'
          · exact ⟨fl, files, hf⟩
          · exact buildTags_processed hrec t ht'

theorem buildTags_mem {stems req : List String} :
    ∀ {tags : List String} {acc : GroupEntry},
    buildTags stems req tags = Except.ok acc →
    ∀ t, (t ∈ acc.map Prod.fst ↔ t ∈ tags ∧
      ∃ files, buildTagFiles stems t req = Except.ok (true, files))
  | [], acc, h, t => by
      have hacc : ([] : GroupEntry) = acc := Except.ok.inj h
      subst hacc
      refine iff_of_false (by simp) ?_
      rintro ⟨hc, _⟩
      exact absurd hc (List.not_mem_nil t)
  | tag :: tags, acc, h, t => by
      rw [buildTags] at h
      rcases hf : buildTagFiles stems tag req with e | ⟨fl, files⟩ <;>
        rw [hf] at h
      · exact Except.noConfusion h
      · rcases hrec : buildTags stems req tags with e | acc' <;>
          rw [hrec] at h
        · exact Except.noConfusion h
        · have hacc : (if fl then (tag, files) :: acc' else acc') = acc :=
            Except.ok.inj h
          subst hacc
          have ih := buildTags_mem hrec t
          by_cases hfl : fl = true
          · rw [if_pos hfl]
            simp only [List.map_cons, List.mem_cons]
            constructor
            · rintro (rfl | hmem)
              · exact ⟨Or.inl rfl, files, hfl ▸ hf⟩
              · rcases ih.mp hmem with ⟨ht, hex⟩
                exact ⟨Or.inr ht, hex⟩
            · rintro ⟨ht, files', hok'⟩
              rcases ht with rfl | ht'
              · exact Or.inl rfl
              · exact Or.inr (ih.mpr ⟨ht', files', hok'⟩)
          · rw [if_neg hfl]
            rw [ih]
            constructor
            · rintro ⟨ht, hex⟩
              exact ⟨List.mem_cons_of_mem _ ht, hex⟩
            · rintro ⟨ht, files', hok'⟩
              rcases List.mem_cons.mp ht with rfl | ht'
              · rw [hf] at hok'
                have h' : ((fl : Bool), files) = (true, files') :=
                  Except.ok.inj hok'
                exact absurd (congrArg Prod.fst h') hfl
              · exact ⟨ht', files', hok'⟩

theorem scanDirs_groups_sub {req : List String} :
    ∀ {dirs : List (String × List String)} {cat : Catalog},
    scanDirs req dirs = Except.ok cat →
    ∀ g ∈ cat.map Prod.fst, g ∈ dirs.map Prod.fst
  | [], cat, h, g, hg => by
      have hc : ([] : Catalog) = cat := Except.ok.inj h
      subst hc
      simp at hg
  | (g0, stems0) :: rest, cat, h, g, hg => by
      rw [scanDirs] at h
      rcases ha : buildTags stems0 req (tagsOf stems0) with e | acc <;>
        rw [ha] at h
      · exact Except.noConfusion h
      · rcases hr : scanDirs req rest with e | cat' <;> rw [hr] at h
        · exact Except.noConfusion h
        · have hc : (if acc.isEmpty then cat' else (g0, acc) :: cat') =
              cat := Except.ok.inj h
          subst hc
          by_cases he : acc.isEmpty
          · rw [if_pos he] at hg
            exact List.mem_cons_of_mem _ (scanDirs_groups_sub hr g hg)
          · rw [if_neg he] at hg
            simp only [List.map_cons, List.mem_cons] at hg
            rcases hg with rfl | hg'
            · exact List.mem_cons_self _ _
            · exact List.mem_cons_of_mem _
                (scanDirs_groups_sub hr g hg')

theorem scanDirs_processed {req : List String} :
    ∀ {dirs : List (String × List String)} {cat : Catalog},
    scanDirs req dirs = Except.ok cat →
    ∀ {g : String} {stems : List String}, (g, stems) ∈ dirs →
    ∃ acc, buildTags stems req (tagsOf stems) = Except.ok acc
  | [], cat, _, g, stems, hg => absurd hg (List.not_mem_nil _)
  | (g0, stems0) :: rest, cat, h, g, stems, hg => by
      rw [scanDirs] at h
      rcases ha : buildTags stems0 req (tagsOf stems0) with e | acc <;>
        rw [ha] at h
      · exact Except.noConfusion h
      rcases hr : scanDirs req rest with e | cat' <;> rw [hr] at h
      · exact Except.noConfusion h
      rcases List.mem_cons.mp hg with heq | hg'
      · injection heq with h1 h2
        subst h1
        subst h2
        exact ⟨acc, ha⟩
      · exact scanDirs_processed hr hg'

theorem scanDirs_spec {req : List String} :
    ∀ {dirs : List (String × List String)} {cat : Catalog},
    (dirs.map Prod.fst).Nodup →
    scanDirs req dirs = Except.ok cat →
    ∀ {g : String} {stems : List String}, (g, stems) ∈ dirs →
    ((g ∈ cat.map Prod.fst ↔ ∃ t ∈ tagsOf stems, ∃ files,
        buildTagFiles stems t req = Except.ok (true, files)) ∧
     (∀ entry, (g, entry) ∈ cat → ∀ t,
       (t ∈ entry.map Prod.fst ↔ t ∈ tagsOf stems ∧ ∃ files,
         buildTagFiles stems t req = Except.ok (true, files))))
  | [], cat, _, _, g, stems, hg => absurd hg (List.not_mem_nil _)
  | (g0, stems0) :: rest, cat, hnd, h, g, stems, hg => by
      rw [scanDirs] at h
      rcases ha : buildTags stems0 req (tagsOf stems0) with e | acc <;>
        rw [ha] at h
      · exact Except.noConfusion h
      rcases hr : scanDirs req rest with e | cat' <;> rw [hr] at h
      · exact Except.noConfusion h
      have hc : (if acc.isEmpty then cat' else (g0, acc) :: cat') = cat :=
        Except.ok.inj h
      subst hc
      have hnd2 : (g0 :: rest.map Prod.fst).Nodup := by simpa using hnd
      have hnd' : (rest.map Prod.fst).Nodup := (List.nodup_cons.mp hnd2).2
      have hg0nin : g0 ∉ rest.map Prod.fst := (List.nodup_cons.mp hnd2).1
      rcases List.mem_cons.mp hg with heq | hg'
      · injection heq with h1 h2
        subst h1
        subst h2
        constructor
        · by_cases he : acc.isEmpty
          · rw [if_pos he]
            have hgnot : g ∉ cat'.map Prod.fst := fun hmem =>
              hg0nin (scanDirs_groups_sub hr g hmem)
            refine iff_of_false hgnot ?_
            rintro ⟨t, ht, files, hokf⟩
            have hmem := (buildTags_mem ha t).mpr ⟨ht, files, hokf⟩
            have haemp : acc = [] := List.isEmpty_iff.mp he
            rw [haemp] at hmem
            simp at hmem
          · rw [if_neg he]
            refine iff_of_true (by simp) ?_
            rcases hane : acc with _ | ⟨⟨t, files⟩, accrest⟩
            · rw [hane] at he
              simp at he
            have htmem : t ∈ acc.map Prod.fst := by
              rw [hane]
              simp
            rcases (buildTags_mem ha t).mp htmem with ⟨ht, hex⟩
            exact ⟨t, ht, hex⟩
        · intro entry hentry t
          by_cases he : acc.isEmpty
          · rw [if_pos he] at hentry
            exact absurd (scanDirs_groups_sub hr g
              (List.mem_map_of_mem _ hentry)) hg0nin
          · rw [if_neg he] at hentry
            rcases List.mem_cons.mp hentry with heq2 | hmem'
            · have hen : entry = acc := by
                injection heq2 with e1 e2
              rw [hen]
              exact buildTags_mem ha t
            · exact absurd (scanDirs_groups_sub hr g
                (List.mem_map_of_mem _ hmem')) hg0nin
      · have hgmem : g ∈ rest.map Prod.fst := List.mem_map_of_mem _ hg'
        have hgne : g ≠ g0 := fun hc => hg0nin (hc ▸ hgmem)
        obtain ⟨ihm, ihe⟩ := scanDirs_spec hnd' hr hg'
        constructor
        · by_cases he : acc.isEmpty
          · rw [if_pos he]
            exact ihm
          · rw [if_neg he]
            constructor
            · intro hmem
              have hmem' : g = g0 ∨ g ∈ cat'.map Prod.fst := by
                simpa using hmem
              rcases hmem' with hc | hmem''
              · exact absurd hc hgne
              · exact ihm.mp hmem''
            · intro hex
              simp only [List.map_cons, List.mem_cons]
              exact Or.inr (ihm.mpr hex)
        · intro entry hentry t
          by_cases he : acc.isEmpty
          · rw [if_pos he] at hentry
            exact ihe entry hentry t
          · rw [if_neg he] at hentry
            rcases List.mem_cons.mp hentry with heq2 | hmem'
            · exact absurd (congrArg Prod.fst heq2) hgne
            · exact ihe entry hmem' t

/-! ## Claim C2 — `_get_data_available` catalog membership -/

/-- C2 counterexample: with one CSV stem `a__b__hg_1__RCM` and
`requires = [RCM]`, the tag `a__b` has a file that (fully) matches
`a__b__<letters>_<digits>__RCM`, so the claim's criterion admits it — but
the code derives tags from the text before the *first* `__` (here `a`),
never considers `a__b`, and returns an empty catalog with the group
dropped. -/
theorem c2_discovery_counterexample :
    _get_data_available [("G1", ["a__b__hg_1__RCM"])] ["RCM"] =
      Except.ok [] ∧
    reTagMatch "a__b" "RCM" "a__b__hg_1__RCM" = some "a__b__hg_1__RCM" ∧
    tagsOf ["a__b__hg_1__RCM"] = ["a"] := by
  exact ⟨rfl, rfl, rfl⟩

/-- C2 (amended): when discovery completes without its internal
`KeyError`, the returned catalog contains a tag under a group iff the tag
occurs as the first `__`-delimited segment of some CSV in that group's
directory *and* for every required type some CSV stem fully matches
`<tag>__<letters>_<digits>__<type>`; a group is present iff it has at
least one such tag.  (The source matches the pattern as a prefix, but on
non-crashing runs the first prefix-match's `.group()` is itself a stem
that matches fully, so full-match is the right criterion for the returned
catalog.) -/
theorem c2_discovery_catalog (dirs : List (String × List String))
    (req : List String) (cat : Catalog)
    (hnd : (dirs.map Prod.fst).Nodup)
    (hok : _get_data_available dirs req = Except.ok cat)
    (g : String) (stems : List String) (hg : (g, stems) ∈ dirs) :
    (∀ t, t ∈ tagsOf stems ↔ ∃ stem ∈ stems, firstSegOf stem = t) ∧
    (g ∈ cat.map Prod.fst ↔ ∃ t ∈ tagsOf stems, ∀ ty ∈ req,
      ∃ stem ∈ stems, reTagMatch t ty stem = some stem) ∧
    (∀ entry, (g, entry) ∈ cat → ∀ t,
      (t ∈ entry.map Prod.fst ↔ t ∈ tagsOf stems ∧ ∀ ty ∈ req,
        ∃ stem ∈ stems, reTagMatch t ty stem = some stem)) := by
  have hscan : scanDirs req dirs = Except.ok cat := by
    unfold _get_data_available at hok
    by_cases he : dirs.isEmpty
    · rw [if_pos he] at hok
      exact Except.noConfusion hok
    · rwa [if_neg he] at hok
  obtain ⟨ihm, ihe⟩ := scanDirs_spec hnd hscan hg
  have hproc : ∀ t ∈ tagsOf stems, ∃ fl files,
      buildTagFiles stems t req = Except.ok (fl, files) := by
    intro t ht
    rcases scanDirs_processed hscan hg with ⟨acc, hacc⟩
    exact buildTags_processed hacc t ht
  have hconv : ∀ t ∈ tagsOf stems,
      ((∃ files, buildTagFiles stems t req = Except.ok (true, files)) ↔
        ∀ ty ∈ req, ∃ stem ∈ stems, reTagMatch t ty stem = some stem) := by
    intro t ht
    rcases hproc t ht with ⟨fl, files, hokf⟩
    exact accepted_iff_full hokf
  refine ⟨?_, ?_, ?_⟩
  · intro t
    unfold tagsOf
    have h := mem_map_dedupKeepFirst (id : String → String) t
      (stems.map firstSegOf)
    rw [List.map_id, List.map_id] at h
    rw [h]
    constructor
    · intro hmem
      rcases List.mem_map.mp hmem with ⟨st, hst, he2⟩
      exact ⟨st, hst, he2⟩
    · rintro ⟨st, hst, he2⟩
      exact List.mem_map.mpr ⟨st, hst, he2⟩
  · rw [ihm]
    constructor
    · rintro ⟨t, ht, hex⟩
      exact ⟨t, ht, (hconv t ht).mp hex⟩
    · rintro ⟨t, ht, hfull⟩
      exact ⟨t, ht, (hconv t ht).mpr hfull⟩
  · intro entry hentry t
    rw [ihe entry hentry t]
    constructor
    · rintro ⟨ht, hex⟩
      exact ⟨ht, (hconv t ht).mp hex⟩
    · rintro ⟨ht, hfull⟩
      exact ⟨ht, (hconv t ht).mpr hfull⟩

set_option maxRecDepth 8000 in
/-- Witness for C2 (amended), on the spec's §8.1 example: group `G1` with
`a` complete (RCM and GBC) and `b` lacking GBC — the catalog keeps exactly
tag `a`. -/
theorem c2_discovery_catalog_witness :
    ("a" ∈ ([("a", [("RCM", "a__hg_1__RCM"), ("GBC", "a__hg_1__GBC")])] :
        GroupEntry).map Prod.fst ↔
      "a" ∈ tagsOf ["a__hg_1__RCM", "a__hg_1__GBC", "b__hg_1__RCM"] ∧
      ∀ ty ∈ ["RCM", "GBC"], ∃ stem ∈
        ["a__hg_1__RCM", "a__hg_1__GBC", "b__hg_1__RCM"],
        reTagMatch "a" ty stem = some stem) ∧
    ("b" ∈ ([("a", [("RCM", "a__hg_1__RCM"), ("GBC", "a__hg_1__GBC")])] :
        GroupEntry).map Prod.fst ↔
      "b" ∈ tagsOf ["a__hg_1__RCM", "a__hg_1__GBC", "b__hg_1__RCM"] ∧
      ∀ ty ∈ ["RCM", "GBC"], ∃ stem ∈
        ["a__hg_1__RCM", "a__hg_1__GBC", "b__hg_1__RCM"],
        reTagMatch "b" ty stem = some stem) :=
  ⟨(c2_discovery_catalog
      [("G1", ["a__hg_1__RCM", "a__hg_1__GBC", "b__hg_1__RCM"])]
      ["RCM", "GBC"]
      [("G1", [("a", [("RCM", "a__hg_1__RCM"), ("GBC", "a__hg_1__GBC")])])]
      (by decide) rfl "G1"
      ["a__hg_1__RCM", "a__hg_1__GBC", "b__hg_1__RCM"]
      (by decide)).2.2
      [("a", [("RCM", "a__hg_1__RCM"), ("GBC", "a__hg_1__GBC")])]
      (by decide) "a",
   (c2_discovery_catalog
      [("G1", ["a__hg_1__RCM", "a__hg_1__GBC", "b__hg_1__RCM"])]
      ["RCM", "GBC"]
      [("G1", [("a", [("RCM", "a__hg_1__RCM"), ("GBC", "a__hg_1__GBC")])])]
      (by decide) rfl "G1"
      ["a__hg_1__RCM", "a__hg_1__GBC", "b__hg_1__RCM"]
      (by decide)).2.2
      [("a", [("RCM", "a__hg_1__RCM"), ("GBC", "a__hg_1__GBC")])]
      (by decide) "b"⟩

/-! ## `dataloader.py` — `FACSplus.available_datasets` and
`fetch_facs_expansion` -/

/-- The `error_text` a `FACSplus.__init__` installs. -/
def facsErrorText : String :=
  "\n        #################################################\n        Class has not been initialized!\n        Use FACSplus.fetch_matching_data(group_data: str) first.\n        #################################################\n        "

/-- A `FACSplus` instance.  All data attributes may be `None`. -/
structure FACSInst where
  mult_rcm : Option (List (String × String))
  mult_gbc : Option (List (String × String))
  facs_rcm : Option (List (String × String))
  assembly_genome : Option String
  tag : Option String
  error_text : String
  deriving DecidableEq

/-- The assembly token of a catalog entry, read from its RCM path
(`data_info["RCM"].stem.split("__")[1]`; the IndexError on a token-less
stem — impossible for discovery output — is defaulted away). -/
def entryToken (info : TagFiles) : String :=
  (assemblyToken ((dictGet info "RCM").getD "")).getD ""

/-- `FACSplus.available_datasets(ref_genome, return_true=True)`: the
returned (filtered) catalog — per group, the entries whose assembly token
equals `ref_genome` (all of them when `ref_genome` is `None`); groups with
no accepted entry are printed as "no matching data" but omitted from the
returned mapping.  The printing and the per-entry CSV header reads are
side effects with no influence on the result. -/
def availableDatasetsCatalog (catalog : Catalog) (refGenome : Option String) :
    Catalog :=
  catalog.filterMap (fun p =>
    let accepted := p.2.filter (fun e =>
      entryToken e.2 = refGenome.getD (entryToken e.2))
    if accepted.isEmpty then none else some (p.1, accepted))

/-- `dict.update(other)`: fold Python dict assignment over the added
pairs. -/
def dictUpdateAll {α : Type} (d add : List (String × α)) :
    List (String × α) :=
  add.foldl (fun acc p => dictSet acc p.1 p.2) d

/-- The FACS-merging loop of `fetch_facs_expansion`: re-validate each
accepted FACS group's RCM entries (tagged by group name) and merge the
nonempty results into one flat mapping. -/
def facsMerge : Catalog → Except String (List (String × String))
  | [] => Except.ok []
  | (key, subdict) :: rest =>
      match _validate_data_dict subdict ["RCM"] (some key) with
      | Except.error e => Except.error e
      | Except.ok (sf, _) =>
          match facsMerge rest with
          | Except.error e => Except.error e
          | Except.ok acc =>
              let rcmDict := (dictGet sf "RCM").getD []
              Except.ok (if rcmDict.isEmpty then acc
                         else dictUpdateAll acc rcmDict)

/-- `FACSplus.fetch_facs_expansion(dataloader_path_dict,
dataloader_add_tag)` over the FACS class catalog. -/
def fetch_facs_expansion (facsCatalog : Catalog)
    (dataloaderPathDict : List (String × List (String × String)))
    (addTag : Option String) : Except String FACSInst :=
  let tagStr := addTag.getD "mult_data"
  match _validate_data_dict dataloaderPathDict ["RCM", "GBC"]
      (some tagStr) with
  | Except.error e => Except.error e
  | Except.ok (dictDataloader, setGenome) =>
      match facsMerge (availableDatasetsCatalog facsCatalog setGenome) with
      | Except.error e => Except.error e
      | Except.ok dictFacs =>
          Except.ok
            { mult_rcm := some ((dictGet dictDataloader "RCM").getD []),
              mult_gbc := some ((dictGet dictDataloader "GBC").getD []),
              facs_rcm := some dictFacs,
              assembly_genome := setGenome,
              tag := some tagStr,
              error_text := facsErrorText }

/-! ## Claim C7 — `fetch_facs_expansion` with no assembly-compatible FACS
group -/

/-- C7 counterexample: the multiomics input resolves to assembly `hg_1`
but the only FACS group carries `hg_2`; instead of failing with a
no-assembly-match error, `fetch_facs_expansion` returns an instance whose
FACS mapping is empty — no such error exists in the code. -/
theorem c7_no_error_counterexample :
    fetch_facs_expansion
        [("g1", [("t1", [("RCM", "t1__hg_2__RCM.csv")])])]
        [("x", [("RCM", "x__hg_1__RCM.csv"), ("GBC", "x__hg_1__GBC.csv")])]
        none =
      Except.ok
        { mult_rcm := some [("x__mult_data", "x__hg_1__RCM.csv")],
          mult_gbc := some [("x__mult_data", "x__hg_1__GBC.csv")],
          facs_rcm := some [],
          assembly_genome := some "hg_1",
          tag := some "mult_data",
          error_text := facsErrorText } := rfl

/-- C7 (amended): when the caller-supplied RCM+GBC dictionary validates to
an assembly matched by no FACS group, `fetch_facs_expansion` raises
nothing: it returns an instance holding the validated multiomics mappings
and an *empty* FACS-RCM mapping. -/
theorem c7_no_match_returns_instance (facsCatalog : Catalog)
    (input : List (String × List (String × String)))
    (addTag : Option String) (dv : List (String × List (String × String)))
    (g : Option String)
    (hval : _validate_data_dict input ["RCM", "GBC"]
      (some (addTag.getD "mult_data")) = Except.ok (dv, g))
    (hnone : availableDatasetsCatalog facsCatalog g = []) :
    fetch_facs_expansion facsCatalog input addTag =
      Except.ok
        { mult_rcm := some ((dictGet dv "RCM").getD []),
          mult_gbc := some ((dictGet dv "GBC").getD []),
          facs_rcm := some [],
          assembly_genome := g,
          tag := some (addTag.getD "mult_data"),
          error_text := facsErrorText } := by
  unfold fetch_facs_expansion
  simp only [hval, hnone]
  rfl

/-- Witness for C7 (amended), at the counterexample's input. -/
theorem c7_no_match_returns_instance_witness :
    fetch_facs_expansion
        [("g1", [("t1", [("RCM", "t1__hg_2__RCM.csv")])])]
        [("x", [("RCM", "x__hg_1__RCM.csv"), ("GBC", "x__hg_1__GBC.csv")])]
        none =
      Except.ok
        { mult_rcm := some ((dictGet
            [("RCM", [("x__mult_data", "x__hg_1__RCM.csv")]),
             ("GBC", [("x__mult_data", "x__hg_1__GBC.csv")])] "RCM").getD []),
          mult_gbc := some ((dictGet
            [("RCM", [("x__mult_data", "x__hg_1__RCM.csv")]),
             ("GBC", [("x__mult_data", "x__hg_1__GBC.csv")])] "GBC").getD []),
          facs_rcm := some [],
          assembly_genome := some "hg_1",
          tag := some "mult_data",
          error_text := facsErrorText } :=
  c7_no_match_returns_instance
    [("g1", [("t1", [("RCM", "t1__hg_2__RCM.csv")])])]
    [("x", [("RCM", "x__hg_1__RCM.csv"), ("GBC", "x__hg_1__GBC.csv")])]
    none
    [("RCM", [("x__mult_data", "x__hg_1__RCM.csv")]),
     ("GBC", [("x__mult_data", "x__hg_1__GBC.csv")])]
    (some "hg_1") rfl rfl

/-! ## `dataloader.py` — `FACSplus.dataloader_extend_facs_hybrid` -/

/-- `self.__dict__` of a `FACSplus` instance (insertion order as set by
`Foundation.__init__` then the subclass; `class_obj` and `error_text` are
never `None`). -/
def facsAttrs (inst : FACSInst) : List (String × Bool) :=
  [("class_obj", true), ("error_text", true),
   ("mult_rcm", inst.mult_rcm.isSome),
   ("mult_gbc", inst.mult_gbc.isSome),
   ("facs_rcm", inst.facs_rcm.isSome),
   ("assembly_genome", inst.assembly_genome.isSome),
   ("tag", inst.tag.isSome)]

/-- ASCII `str.lower()` (the dataset keys use ASCII names). -/
def pyLower (st : String) : String := String.mk (st.data.map Char.toLower)

/-- `{old.lower(): old for old in keys}` — later duplicates overwrite. -/
def buildLowerMap (keys : List String) : List (String × String) :=
  keys.foldl (fun acc k => dictSet acc (pyLower k) k) []

/-- Stand-in for `AttributeError: NoneType has no attribute lower`. -/
def attrNoneMsg : String := "AttributeError: NoneType has no attribute"

/-- Stand-in for the `KeyError` of `self.mult_gbc[k]` / `self.facs_rcm[k]`
when a selected key is missing. -/
def hybridKeyErrMsg : String := "KeyError: selected key missing"

/-- The `ValueError` of the `is_facs_percent` type guard. -/
def facsPercentGuardMsg : String :=
  "Variable is_facs_percent must be of the following type: int, float, None!"

/-- Stand-in for the `NameError` (undefined `len_mult_data`, etc.) the
unreachable code after the guard would raise. -/
def unreachableNameErrMsg : String := "NameError: name is not defined"

/-- The runtime type of the `is_facs_percent` argument.  Only the type is
ever inspected (the guard fires before any value is used), so the float
constructor carries no payload. -/
inductive PercentArg where
  | intVal : Int → PercentArg
  | floatVal : PercentArg
  | noneVal : PercentArg
  | otherVal : PercentArg
  deriving DecidableEq

/-- `not isinstance(is_facs_percent, (int, float))`. -/
def percentNotNum : PercentArg → Bool
  | PercentArg.intVal _ => false
  | PercentArg.floatVal => false
  | _ => true

/-- `is_facs_percent is not None`. -/
def percentNotNone : PercentArg → Bool
  | PercentArg.noneVal => false
  | _ => true

/-- `get_best_match_set(query_list, search_list)`: per query token, a
multiple-match `best_match`; `None` results are skipped; the final
`list(set(...))` de-duplicates (Python's set order is unspecified;
first-occurrence order is used — the result is discarded before anything
order-dependent happens). -/
def getBestMatchSet (queryList searchList : List String) :
    Except String (List String) :=
  match goConcat queryList with
  | Except.error e => Except.error e
  | Except.ok l => Except.ok (dedupKeepFirst id l)
where
  goConcat : List String → Except String (List String)
    | [] => Except.ok []
    | q :: qs =>
        match best_match q searchList true with
        | Except.error e => Except.error e
        | Except.ok r =>
            match goConcat qs with
            | Except.error e => Except.error e
            | Except.ok acc =>
                Except.ok (match r with
                           | BMatch.many l => l ++ acc
                           | BMatch.one st => st :: acc
                           | BMatch.noHit => acc)

/-- `{k: d[k] for k in keys}` where a missing key raises `KeyError`. -/
def lookupAll (d : List (String × String)) :
    List String → Except String (List (String × String))
  | [] => Except.ok []
  | k :: ks =>
      match dictGet d k with
      | none => Except.error hybridKeyErrMsg
      | some v =>
          match lookupAll d ks with
          | Except.error e => Except.error e
          | Except.ok vs => Except.ok ((k, v) :: vs)

/-- `FACSplus.dataloader_extend_facs_hybrid(dataset_name, query_mult_data,
query_facs_data, is_facs_percent)`.  The branch after the type guard is
unreachable (the guard condition holds for every runtime type, see
`c10_extend_hybrid_always_raises`); the source there references undefined
names (`len_mult_data`), which would raise `NameError`. -/
def dataloader_extend_facs_hybrid (inst : FACSInst) (datasetName : String)
    (queryMultData queryFacsData : Option String)
    (isFacsPercent : PercentArg) : Except String Unit :=
  match checkLoaded (facsAttrs inst) inst.error_text with
  | Except.error e => Except.error e
  | Except.ok _ =>
  match queryMultData with
  | none => Except.error attrNoneMsg
  | some qm =>
  match queryFacsData with
  | none => Except.error attrNoneMsg
  | some qf =>
  match getBestMatchSet (pySplit " " (pyLower qm))
      ((buildLowerMap ((inst.mult_rcm.getD []).map Prod.fst)).map
        Prod.fst) with
  | Except.error e => Except.error e
  | Except.ok keysMult =>
  match lookupAll (inst.mult_gbc.getD [])
      (keysMult.filterMap (fun k => dictGet
        (buildLowerMap ((inst.mult_rcm.getD []).map Prod.fst)) k)) with
  | Except.error e => Except.error e
  | Except.ok _pathsGbc =>
  match lookupAll (inst.mult_rcm.getD [])
      (keysMult.filterMap (fun k => dictGet
        (buildLowerMap ((inst.mult_rcm.getD []).map Prod.fst)) k)) with
  | Except.error e => Except.error e
  | Except.ok _pathsRcm =>
  match getBestMatchSet (pySplit " " (pyLower qf))
      ((buildLowerMap ((inst.facs_rcm.getD []).map Prod.fst)).map
        Prod.fst) with
  | Except.error e => Except.error e
  | Except.ok keysFacs =>
  match lookupAll (inst.facs_rcm.getD [])
      (keysFacs.filterMap (fun k => dictGet
        (buildLowerMap ((inst.facs_rcm.getD []).map Prod.fst)) k)) with
  | Except.error e => Except.error e
  | Except.ok _pathsFacs =>
  if percentNotNum isFacsPercent || percentNotNone isFacsPercent then
    Except.error facsPercentGuardMsg
  else Except.error unreachableNameErrMsg

/-! ## Claim C10 — `dataloader_extend_facs_hybrid` always raises -/

/-- C10: `dataloader_extend_facs_hybrid` can never succeed: the
`is_facs_percent` type guard (`not isinstance(..., (int, float)) or
is_facs_percent is not None`) is a tautology over the runtime types, so
every call errors before sampling, merging, or persisting anything (the
instance is never mutated — the embedding returns no new state).  With
either query string absent the failure is the string-processing
`AttributeError`; with both present and the selections resolvable, the
failure is exactly the guard's `ValueError`. -/
theorem c10_extend_hybrid_always_raises (inst : FACSInst)
    (datasetName : String) (qm qf : Option String) (p : PercentArg) :
    (∀ p', (percentNotNum p' || percentNotNone p') = true) ∧
    ((dataloader_extend_facs_hybrid inst datasetName qm qf p).isOk =
      false) ∧
    (checkLoaded (facsAttrs inst) inst.error_text = Except.ok () →
      qm = none →
      dataloader_extend_facs_hybrid inst datasetName qm qf p =
        Except.error attrNoneMsg) ∧
    (∀ q1 q2 km gb rm kf ff,
      checkLoaded (facsAttrs inst) inst.error_text = Except.ok () →
      qm = some q1 → qf = some q2 →
      getBestMatchSet (pySplit " " (pyLower q1))
        ((buildLowerMap ((inst.mult_rcm.getD []).map Prod.fst)).map
          Prod.fst) = Except.ok km →
      lookupAll (inst.mult_gbc.getD [])
        (km.filterMap (fun k => dictGet
          (buildLowerMap ((inst.mult_rcm.getD []).map Prod.fst)) k)) =
        Except.ok gb →
      lookupAll (inst.mult_rcm.getD [])
        (km.filterMap (fun k => dictGet
          (buildLowerMap ((inst.mult_rcm.getD []).map Prod.fst)) k)) =
        Except.ok rm →
      getBestMatchSet (pySplit " " (pyLower q2))
        ((buildLowerMap ((inst.facs_rcm.getD []).map Prod.fst)).map
          Prod.fst) = Except.ok kf →
      lookupAll (inst.facs_rcm.getD [])
        (kf.filterMap (fun k => dictGet
          (buildLowerMap ((inst.facs_rcm.getD []).map Prod.fst)) k)) =
        Except.ok ff →
      dataloader_extend_facs_hybrid inst datasetName qm qf p =
        Except.error facsPercentGuardMsg) := by
  have htaut : ∀ p', (percentNotNum p' || percentNotNone p') = true := by
    intro p'
    cases p' <;> rfl
  refine ⟨htaut, ?_, ?_, ?_⟩
  · unfold dataloader_extend_facs_hybrid
    repeat' split
    all_goals rfl
  · intro hok hqm
    subst hqm
    unfold dataloader_extend_facs_hybrid
    rw [hok]
  · intro q1 q2 km gb rm kf ff hok hqm hqf h1 h2 h3 h4 h5
    subst hqm
    subst hqf
    unfold dataloader_extend_facs_hybrid
    rw [hok]
    simp only [h1, h2, h3, h4, h5]
    rw [if_pos (htaut p)]

/-- A fully loaded `FACSplus` instance for exercising
`dataloader_extend_facs_hybrid`. -/
def facsHybridInst0 : FACSInst :=
  { mult_rcm := some [("a", "r.csv")], mult_gbc := some [("a", "g.csv")],
    facs_rcm := some [("b", "f.csv")], assembly_genome := some "hg",
    tag := some "t", error_text := facsErrorText }

set_option maxRecDepth 8000 in
/-- C10 witness: on a loaded instance with resolvable queries the call
fails with the `is_facs_percent` `ValueError` even for a `float` argument;
with the multiomics query `None` it fails with the `AttributeError`. -/
theorem c10_extend_hybrid_always_raises_witness :
    (dataloader_extend_facs_hybrid facsHybridInst0 "ds" (some "a")
        (some "b") PercentArg.floatVal =
      Except.error facsPercentGuardMsg) ∧
    (dataloader_extend_facs_hybrid facsHybridInst0 "ds" none (some "b")
        (PercentArg.intVal 5) =
      Except.error attrNoneMsg) := by
  refine ⟨?_, ?_⟩
  · exact (c10_extend_hybrid_always_raises facsHybridInst0 "ds" (some "a")
      (some "b") PercentArg.floatVal).2.2.2 "a" "b" ["a"] [("a", "g.csv")]
      [("a", "r.csv")] ["b"] [("b", "f.csv")] rfl rfl rfl rfl rfl rfl rfl
      rfl
  · exact (c10_extend_hybrid_always_raises facsHybridInst0 "ds" none
      (some "b") (PercentArg.intVal 5)).2.2.1 rfl rfl

/-! ## `dataloader.py` — object identity of the catalog and
`get_as_dataframe` (heap model)

Python's `{tag: dict_subset_group[tag] for tag in ...}` copies
*references* to the per-tag inner dicts, and `subset_filter=None` even
aliases the outer group dict itself.  To reason about this aliasing the
inner dicts live in an explicit heap (`Store`), and both the class
catalog and an instance's selection map tags to heap *addresses*. -/

/-- A value held in a per-tag inner dict: the file path recorded at
discovery time, or the dataframe `pd.read_csv(str(v), index_col=col)`
produced by `get_as_dataframe` (modelled by its source text and its index
column). -/
inductive PdValue where
  | path : String → PdValue
  | table : String → String → PdValue
  deriving DecidableEq

/-- `str(v)`, as passed to `pd.read_csv(str(...))`. -/
def pdValueStr : PdValue → String
  | PdValue.path st => st
  | PdValue.table st _ => st

/-- The heap of inner per-tag dicts; a Python dict object is identified
by its address (its index in the store). -/
abbrev Store := List (List (String × PdValue))

/-- `DataLoader._dict_available_data` with object identity made explicit:
group name → (tag → address of the tag's inner dict). -/
abbrev CatalogR := List (String × List (String × Nat))

/-- `subsetSelect` over a reference-valued group entry: the dict
comprehension of `fetch_data` builds a fresh outer dict but copies the
inner-dict references unchanged. -/
def subsetSelectR (grp : List (String × Nat)) (tags : List String) :
    List (String × Nat) :=
  (dedupKeepFirst id (tags.filter
      (fun tag => tag ∈ grp.map Prod.fst))).map
    (fun tag => (tag, (dictGet grp tag).getD 0))

/-- `DataLoader.fetch_data` over the reference-valued catalog: identical
control flow to `fetch_data`, but the selection it stores is a mapping to
the *same addresses* the class catalog holds (with `subset_filter=None`
it is the class catalog's own group dict). -/
def fetch_data_ref (catalogR : CatalogR) (group_data : String)
    (subset_filter : SubsetFilter) :
    Except String (List (String × Nat) × String) :=
  match bestMatchSingle group_data (catalogR.map Prod.fst) with
  | Except.error e => Except.error e
  | Except.ok g =>
    match subset_filter with
    | SubsetFilter.otherV => Except.error invalidSubsetMsg
    | SubsetFilter.noneV =>
        if ((dictGet catalogR g).getD []).isEmpty then
          Except.error noSubsetMatchMsg
        else Except.ok ((dictGet catalogR g).getD [], g)
    | SubsetFilter.strV st =>
        if (subsetSelectR ((dictGet catalogR g).getD []) [st]).isEmpty then
          Except.error noSubsetMatchMsg
        else Except.ok (subsetSelectR ((dictGet catalogR g).getD []) [st], g)
    | SubsetFilter.listV tags =>
        if (subsetSelectR ((dictGet catalogR g).getD []) tags).isEmpty then
          Except.error noSubsetMatchMsg
        else Except.ok (subsetSelectR ((dictGet catalogR g).getD []) tags, g)

/-- Stand-in for the `KeyError` when a selected inner dict lacks the
`GBC`/`RCM` key being read. -/
def dfKeyErrMsg : String := "KeyError: GBC or RCM missing"

/-- Stand-in for dereferencing a dangling address (never happens for
catalog-derived selections). -/
def dfBadAddrMsg : String := "invalid address"

/-- One statement `d[k] = pd.read_csv(str(d[k]), index_col=idx)`:
the key is read, parsed, and overwritten in place. -/
def dfUpdate (d : List (String × PdValue)) (k idx : String) :
    Except String (List (String × PdValue)) :=
  match dictGet d k with
  | none => Except.error dfKeyErrMsg
  | some v => Except.ok (dictSet d k (PdValue.table (pdValueStr v) idx))

/-- `DataLoader.get_as_dataframe` as a store transformer: for each tag of
the instance's selection, the tag's inner dict — shared with the class
catalog — is updated in place (`GBC` re-read with `index_col="CHR"`, then
`RCM` with `index_col="Gene"`).  The method returns
`self.fetched_group_dict_data`, i.e. the unchanged address mapping. -/
def get_as_dataframe_ref (store : Store) :
    List (String × Nat) → Except String Store
  | [] => Except.ok store
  | (_, addr) :: rest =>
      match store.get? addr with
      | none => Except.error dfBadAddrMsg
      | some d =>
          match dfUpdate d "GBC" "CHR" with
          | Except.error e => Except.error e
          | Except.ok d1 =>
              match dfUpdate d1 "RCM" "Gene" with
              | Except.error e => Except.error e
              | Except.ok d2 => get_as_dataframe_ref (store.set addr d2) rest

/-- The class catalog as its callers see it: every address read through
the current store.  `available_datasets` and a second concurrent
instance read the catalog through this view. -/
def catalogView (store : Store) (catalogR : CatalogR) :
    List (String × List (String × List (String × PdValue))) :=
  catalogR.map (fun g => (g.1, g.2.map
    (fun t => (t.1, (store.get? t.2).getD []))))

/-- An inner dict in post-`get_as_dataframe` shape: both data keys hold
parsed tables with their respective index columns. -/
def tableShaped (d : List (String × PdValue)) : Prop :=
  (∃ s1, dictGet d "GBC" = some (PdValue.table s1 "CHR")) ∧
  (∃ s2, dictGet d "RCM" = some (PdValue.table s2 "Gene"))

theorem dfUpdate_ok {d d' : List (String × PdValue)} {k idx : String}
    (h : dfUpdate d k idx = Except.ok d') :
    ∃ v, dictGet d k = some v ∧
      d' = dictSet d k (PdValue.table (pdValueStr v) idx) := by
  unfold dfUpdate at h
  rcases hv : dictGet d k with _ | v
  · rw [hv] at h
    exact Except.noConfusion h
  · rw [hv] at h
    exact ⟨v, rfl, (Except.ok.injEq _ _).mp h |>.symm⟩

theorem tableShaped_step {d d2 : List (String × PdValue)}
    (h1 : ∃ d1, dfUpdate d "GBC" "CHR" = Except.ok d1 ∧
      dfUpdate d1 "RCM" "Gene" = Except.ok d2) :
    tableShaped d2 := by
  rcases h1 with ⟨d1, hg, hr⟩
  rcases dfUpdate_ok hg with ⟨vg, _, hd1⟩
  rcases dfUpdate_ok hr with ⟨vr, _, hd2⟩
  constructor
  · refine ⟨pdValueStr vg, ?_⟩
    rw [hd2, dictGet_dictSet]
    rw [if_neg (by decide : ¬("GBC" = "RCM")), hd1, dictGet_dictSet]
    rw [if_pos rfl]
  · refine ⟨pdValueStr vr, ?_⟩
    rw [hd2, dictGet_dictSet, if_pos rfl]

theorem get_as_dataframe_ref_length {sel : List (String × Nat)} :
    ∀ {store store' : Store},
      get_as_dataframe_ref store sel = Except.ok store' →
      store'.length = store.length := by
  induction sel with
  | nil =>
      intro store store' h
      unfold get_as_dataframe_ref at h
      rw [(Except.ok.injEq _ _).mp h]
  | cons p rest ih =>
      intro store store' h
      unfold get_as_dataframe_ref at h
      split at h
      · exact Except.noConfusion h
      split at h
      · exact Except.noConfusion h
      split at h
      · exact Except.noConfusion h
      rw [ih h, List.length_set]

theorem get_as_dataframe_ref_frame {sel : List (String × Nat)} :
    ∀ {store store' : Store},
      get_as_dataframe_ref store sel = Except.ok store' →
      ∀ a : Nat, (∀ p ∈ sel, p.2 ≠ a) → store'.get? a = store.get? a := by
  induction sel with
  | nil =>
      intro store store' h a _
      unfold get_as_dataframe_ref at h
      rw [(Except.ok.injEq _ _).mp h]
  | cons p rest ih =>
      intro store store' h a ha
      unfold get_as_dataframe_ref at h
      split at h
      · exact Except.noConfusion h
      split at h
      · exact Except.noConfusion h
      split at h
      · exact Except.noConfusion h
      rename_i d2 h2
      have hrest : ∀ q ∈ rest, q.2 ≠ a := fun q hq =>
        ha q (List.mem_cons_of_mem _ hq)
      rw [ih h a hrest]
      exact List.get?_set_ne d2 store (ha p (List.mem_cons_self _ _))

theorem get_as_dataframe_ref_shaped {sel : List (String × Nat)} :
    ∀ {store store' : Store} {a : Nat} {d : List (String × PdValue)},
      get_as_dataframe_ref store sel = Except.ok store' →
      store.get? a = some d → tableShaped d →
      ∃ d', store'.get? a = some d' ∧ tableShaped d' := by
  induction sel with
  | nil =>
      intro store store' a d h hget hsh
      unfold get_as_dataframe_ref at h
      cases h
      exact ⟨d, hget, hsh⟩
  | cons p rest ih =>
      intro store store' a d h hget hsh
      unfold get_as_dataframe_ref at h
      split at h
      · exact Except.noConfusion h
      rename_i dd hd
      split at h
      · exact Except.noConfusion h
      rename_i d1 h1
      split at h
      · exact Except.noConfusion h
      rename_i d2 h2
      by_cases hpa : p.2 = a
      · subst hpa
        have hlt : p.2 < store.length := List.get?_eq_some.mp hd |>.1
        have hset : (store.set p.2 d2).get? p.2 = some d2 :=
          List.get?_set_eq_of_lt d2 hlt
        exact ih h hset (tableShaped_step ⟨d1, h1, h2⟩)
      · have hset : (store.set p.2 d2).get? a = store.get? a :=
          List.get?_set_ne d2 store hpa
        exact ih h (hset.trans hget) hsh

theorem get_as_dataframe_ref_sel_shaped {sel : List (String × Nat)} :
    ∀ {store store' : Store},
      get_as_dataframe_ref store sel = Except.ok store' →
      ∀ p ∈ sel, ∃ d', store'.get? p.2 = some d' ∧ tableShaped d' := by
  induction sel with
  | nil =>
      intro store store' _ p hp
      exact absurd hp (List.not_mem_nil p)
  | cons q rest ih =>
      intro store store' h p hp
      unfold get_as_dataframe_ref at h
      split at h
      · exact Except.noConfusion h
      rename_i dd hd
      split at h
      · exact Except.noConfusion h
      rename_i d1 h1
      split at h
      · exact Except.noConfusion h
      rename_i d2 h2
      rcases List.mem_cons.mp hp with hpq | hpr
      · subst hpq
        have hlt : p.2 < store.length := List.get?_eq_some.mp hd |>.1
        have hset : (store.set p.2 d2).get? p.2 = some d2 :=
          List.get?_set_eq_of_lt d2 hlt
        exact get_as_dataframe_ref_shaped h hset
          (tableShaped_step ⟨d1, h1, h2⟩)
      · exact ih h p hpr

theorem key_mem_getD {grp : List (String × Nat)} {tag : String}
    (h : tag ∈ grp.map Prod.fst) :
    (dictGet grp tag).getD 0 ∈ grp.map Prod.snd := by
  induction grp with
  | nil => simp at h
  | cons q rest ih =>
      obtain ⟨a, b⟩ := q
      by_cases hq : a = tag
      · rw [dictGet_cons, if_pos hq]
        exact List.mem_cons_self _ _
      · rw [dictGet_cons, if_neg hq]
        have h' : tag ∈ rest.map Prod.fst := by
          rcases List.mem_cons.mp h with he | hm
          · exact absurd he.symm hq
          · exact hm
        exact List.mem_cons_of_mem _ (ih h')

theorem subsetSelectR_addr_mem {grp : List (String × Nat)}
    {tags : List String} {p : String × Nat}
    (hp : p ∈ subsetSelectR grp tags) : p.2 ∈ grp.map Prod.snd := by
  unfold subsetSelectR at hp
  rcases List.mem_map.mp hp with ⟨tag, htag, hpe⟩
  have htag' : tag ∈ (tags.filter (fun t => t ∈ grp.map Prod.fst)) := by
    have hmm := (mem_map_dedupKeepFirst id tag
      (tags.filter (fun t => t ∈ grp.map Prod.fst))).mp
      (List.mem_map.mpr ⟨tag, htag, rfl⟩)
    simpa using hmm
  have hkey : tag ∈ grp.map Prod.fst := by
    have hof := List.of_mem_filter htag'
    simpa using hof
  rw [← hpe]
  exact key_mem_getD hkey

theorem fetch_data_ref_sel_addr {catalogR : CatalogR} {gq : String}
    {filt : SubsetFilter} {sel : List (String × Nat)} {g : String}
    (h : fetch_data_ref catalogR gq filt = Except.ok (sel, g)) :
    ∀ p ∈ sel, p.2 ∈ ((dictGet catalogR g).getD []).map Prod.snd := by
  intro p hp
  unfold fetch_data_ref at h
  split at h
  · exact Except.noConfusion h
  rename_i g0 hg0
  split at h
  · exact Except.noConfusion h
  · split at h
    · exact Except.noConfusion h
    have hinj := (Except.ok.injEq _ _).mp h
    have hsel : ((dictGet catalogR g0).getD []) = sel :=
      congrArg Prod.fst hinj
    have hgg : g0 = g := congrArg Prod.snd hinj
    rw [← hgg, hsel]
    exact List.mem_map.mpr ⟨p, hp, rfl⟩
  · rename_i st
    split at h
    · exact Except.noConfusion h
    have hinj := (Except.ok.injEq _ _).mp h
    have hsel : subsetSelectR ((dictGet catalogR g0).getD []) [st] = sel :=
      congrArg Prod.fst hinj
    have hgg : g0 = g := congrArg Prod.snd hinj
    rw [← hgg]
    rw [← hsel] at hp
    exact subsetSelectR_addr_mem hp
  · rename_i tags
    split at h
    · exact Except.noConfusion h
    have hinj := (Except.ok.injEq _ _).mp h
    have hsel : subsetSelectR ((dictGet catalogR g0).getD []) tags = sel :=
      congrArg Prod.fst hinj
    have hgg : g0 = g := congrArg Prod.snd hinj
    rw [← hgg]
    rw [← hsel] at hp
    exact subsetSelectR_addr_mem hp

/-- C8 counterexample: one group `grp` with one tag `t` whose inner dict
(heap address 0) holds file paths.  `fetch_data(\"grp\")` (subset absent)
returns an instance whose selection aliases the catalog's dict; running
`get_as_dataframe` succeeds, but afterwards the class catalog read
through the heap no longer maps the tag to file paths — its `GBC`/`RCM`
entries have become parsed tables. -/
theorem c8_catalog_mutation_counterexample :
    fetch_data_ref [("grp", [("t", 0)])] "grp" SubsetFilter.noneV =
      Except.ok ([("t", 0)], "grp") ∧
    get_as_dataframe_ref
        [[("GBC", PdValue.path "g.csv"), ("RCM", PdValue.path "r.csv")]]
        [("t", 0)] =
      Except.ok [[("GBC", PdValue.table "g.csv" "CHR"),
                  ("RCM", PdValue.table "r.csv" "Gene")]] ∧
    catalogView
        [[("GBC", PdValue.path "g.csv"), ("RCM", PdValue.path "r.csv")]]
        [("grp", [("t", 0)])] ≠
      catalogView
        [[("GBC", PdValue.table "g.csv" "CHR"),
          ("RCM", PdValue.table "r.csv" "Gene")]]
        [("grp", [("t", 0)])] := by
  refine ⟨rfl, rfl, ?_⟩
  decide

/-- C8 (amended): for every instance produced by `fetch_data` and every
successful `get_as_dataframe` run, (i) the heap keeps its size, (ii) inner
dicts at addresses outside the instance's selection are untouched, (iii)
each selected tag's inner dict ends with `GBC`/`RCM` holding parsed
tables indexed by `CHR`/`Gene`, and (iv) every selected address is an
address the class catalog still references — so the mutation of (iii) is
visible through `DataLoader._dict_available_data`, which afterwards no
longer maps those tags to file paths (the claim's unchanged-catalog part
fails; see the counterexample). -/
theorem c8_get_as_dataframe_aliasing (catalogR : CatalogR)
    (gq : String) (filt : SubsetFilter) (sel : List (String × Nat))
    (g : String) (store store' : Store)
    (hfetch : fetch_data_ref catalogR gq filt = Except.ok (sel, g))
    (hrun : get_as_dataframe_ref store sel = Except.ok store') :
    store'.length = store.length ∧
    (∀ a : Nat, (∀ p ∈ sel, p.2 ≠ a) → store'.get? a = store.get? a) ∧
    (∀ p ∈ sel, ∃ d', store'.get? p.2 = some d' ∧ tableShaped d') ∧
    (∀ p ∈ sel, p.2 ∈ ((dictGet catalogR g).getD []).map Prod.snd) :=
  ⟨get_as_dataframe_ref_length hrun,
   get_as_dataframe_ref_frame hrun,
   get_as_dataframe_ref_sel_shaped hrun,
   fetch_data_ref_sel_addr hfetch⟩

set_option maxRecDepth 8000 in
/-- C8 witness: the counterexample scenario instantiates the amended
theorem — the heap keeps its single dict, and address 0 ends table-shaped. -/
theorem c8_get_as_dataframe_aliasing_witness :
    (([[("GBC", PdValue.table "g.csv" "CHR"),
        ("RCM", PdValue.table "r.csv" "Gene")]] : Store).length =
      ([[("GBC", PdValue.path "g.csv"),
         ("RCM", PdValue.path "r.csv")]] : Store).length) ∧
    (∃ d', ([[("GBC", PdValue.table "g.csv" "CHR"),
              ("RCM", PdValue.table "r.csv" "Gene")]] : Store).get? 0 =
        some d' ∧ tableShaped d') := by
  have h := c8_get_as_dataframe_aliasing [("grp", [("t", 0)])] "grp"
      SubsetFilter.noneV [("t", 0)] "grp"
      [[("GBC", PdValue.path "g.csv"), ("RCM", PdValue.path "r.csv")]]
      [[("GBC", PdValue.table "g.csv" "CHR"),
        ("RCM", PdValue.table "r.csv" "Gene")]]
      rfl rfl
  exact ⟨h.1, h.2.2.1 ("t", 0) (List.mem_cons_self _ _)⟩

end CnvBench
